import Mathlib

/-!
# Formal model of the `susy_cross_section` core

This development gives a shallow embedding, in Lean 4, of the core algorithms
of the `susy_cross_section` package:

* the unit algebra (`susy_cross_section/utility.py`, class `Unit`),
* the value formatting routine (`susy_cross_section/utility.py`, `value_format`),
* the grid-table builder (`susy_cross_section/base/table.py`, `BaseFile`),
* the uncertainty-aware interpolation result objects
  (`susy_cross_section/interp/interpolator.py` and
  `susy_cross_section/interpolator.py`),

together with theorems checking the natural-language specification of the
package against these definitions.

Python floats are modelled by exact rationals `ℚ`; the float power `x ** 0.5`
used in quadrature sums is modelled by `Real.sqrt` on `ℝ`.  `numpy.log10` is
modelled by the exact base-10 logarithm, expressed through `Int.log`.
-/

/-! ## Numeric helpers -/

/-- Python `round`: round a rational to the nearest integer, ties to even. -/
def pyRound (q : ℚ) : ℤ :=
  let f : ℤ := ⌊q⌋
  let r : ℚ := q - f
  if r < 1 / 2 then f
  else if 1 / 2 < r then f + 1
  else if 2 ∣ f then f else f + 1

/-- Python `int(log10(v))` for a positive rational `v`: the base-10 logarithm
truncated toward zero.  For `v ≥ 1` this is `⌊log10 v⌋`; for `v < 1` it is
`⌈log10 v⌉ = -⌊log10 v⁻¹⌋`.  (Junk value for `v ≤ 0`, where the Python code
would produce a NaN.) -/
def pyTruncLog10 (v : ℚ) : ℤ :=
  if 1 ≤ v then Int.log 10 v else -Int.log 10 v⁻¹

/-- Python `int(-log10(d) - 0.005)` for a positive rational `d`, computed
exactly.  Writing `y = -log10 d - 1/200` and `z = 10 * d ^ 200`, we have
`y = -(log10 z) / 200`; hence `⌊y⌋ = ⌊⌊log10 z⁻¹⌋ / 200⌋` by the nested-floor
identity `⌊x / n⌋ = ⌊⌊x⌋ / n⌋`, and truncation toward zero negates the floor
of `-y` when `y < 0`. -/
def truncShift (d : ℚ) : ℤ :=
  let z : ℚ := 10 * d ^ 200
  if z ≤ 1 then Int.fdiv (Int.log 10 z⁻¹) 200
  else -Int.fdiv (Int.log 10 z) 200

/-- Exactly `⌊-log10 d - 0.005⌋` for a positive rational `d` (the floor variant that
claim C6 ascribes to the code), computed exactly like `truncShift`. -/
def floorShift (d : ℚ) : ℤ :=
  Int.fdiv (Int.log 10 (10 * d ^ 200)⁻¹) 200

/-! ## String helpers -/

/-- Python `str.split(",")`: split on commas, keeping empty pieces. -/
def splitCommaAux : List Char → List Char → List String
  | [], acc => [String.mk acc.reverse]
  | c :: rest, acc =>
      if c = ',' then String.mk acc.reverse :: splitCommaAux rest []
      else splitCommaAux rest (c :: acc)

/-- Python `s.split(",")`. -/
def splitComma (s : String) : List String := splitCommaAux s.toList []

/-- Pad a string on the left with zeros up to the given length. -/
def padLeftZeros (s : String) (len : ℕ) : String :=
  String.mk (List.replicate (len - s.length) '0') ++ s

/-- Python fixed-point formatting `"%.df" % q` of a rational: round
`q * 10 ^ d` to the nearest integer (ties to even, as CPython does on the
decimal value) and typeset with `d` digits after the point.  (For negative
values that round to zero Python would keep the sign; that corner is not
reached in this development.) -/
def formatFixed (q : ℚ) (d : ℕ) : String :=
  let n : ℤ := pyRound (q * 10 ^ d)
  let sgn : String := if n < 0 then "-" else ""
  let m : ℕ := n.natAbs
  if d = 0 then sgn ++ toString m
  else sgn ++ toString (m / 10 ^ d) ++ "." ++ padLeftZeros (toString (m % 10 ^ d)) d

/-- Remove trailing zeros of a decimal fraction, and the decimal point itself
if nothing remains behind it. -/
def stripTrailingZeros (s : String) : String :=
  let l := s.toList.reverse.dropWhile (fun c => c = '0')
  let l2 := match l with
    | '.' :: rest => rest
    | _ => l
  String.mk l2.reverse

/-- Python `"%g" % q` (general float format, default precision 6): round to 6
significant digits, use fixed-point notation when the decimal exponent `e`
satisfies `-4 ≤ e < 6` and scientific notation otherwise, stripping trailing
zeros of the fraction. -/
def pyFormatG (q : ℚ) : String :=
  if q = 0 then "0"
  else
    let s : String := if q < 0 then "-" else ""
    let a : ℚ := |q|
    let e0 : ℤ := Int.log 10 a
    let n0 : ℤ := pyRound (a * 10 ^ ((5 : ℤ) - e0))
    let p : ℤ × ℤ := if n0 = 10 ^ 6 then (10 ^ 5, e0 + 1) else (n0, e0)
    let n6 : ℤ := p.1
    let e : ℤ := p.2
    if -4 ≤ e ∧ e < 6 then
      let dec : ℕ := ((5 : ℤ) - e).toNat
      if dec = 0 then s ++ toString n6.natAbs
      else s ++ stripTrailingZeros (formatFixed ((n6 : ℚ) * 10 ^ (e - 5)) dec)
    else
      let mant : String :=
        stripTrailingZeros
          (toString (n6.natAbs / 10 ^ 5) ++ "." ++
            padLeftZeros (toString (n6.natAbs % 10 ^ 5)) 5)
      s ++ mant ++ "e" ++ (if e < 0 then "-" else "+") ++
        padLeftZeros (toString e.natAbs) 2

/-! ## Unit algebra

Embedding of the class `Unit` of `susy_cross_section/utility.py`.  The Python
attribute `_units` is a `dict` from base-unit names to integer exponents; it is
modelled by an association list with pairwise distinct keys, extended at the
end when a new key is inserted (Python dicts preserve insertion order).  The
attribute `_factor` is a float, modelled by `ℚ`.  The name `Unit` itself is
taken by the Lean core library, so the structure is called `PhysUnit`. -/

/-- Look up a key in an exponent dictionary; absent keys count as exponent 0
(Python `self._units.get(k, 0)`). -/
def dictGet (d : List (String × ℤ)) (k : String) : ℤ :=
  match d.find? (fun kv => kv.1 = k) with
  | some kv => kv.2
  | none => 0

/-- Python `self._units[k] = self._units.get(k, 0) + v`: update the entry in
place if the key is present, append it otherwise. -/
def dictInsertAdd (d : List (String × ℤ)) (k : String) (v : ℤ) : List (String × ℤ) :=
  if d.any (fun kv => kv.1 = k) then
    d.map (fun kv => if kv.1 = k then (kv.1, kv.2 + v) else kv)
  else d ++ [(k, v)]

/-- Merge a second exponent dictionary into a first one, adding exponents
(the loop of `Unit.__imul__` over `other._units.items()`). -/
def dictMergeAdd (d e : List (String × ℤ)) : List (String × ℤ) :=
  e.foldl (fun acc kv => dictInsertAdd acc kv.1 kv.2) d

/-- The class `Unit` of `susy_cross_section/utility.py`: a numerical factor
together with integer exponents of named base units. -/
structure PhysUnit where
  factor : ℚ
  units : List (String × ℤ)
deriving Repr, DecidableEq

/-- Embedding of `Unit._get_base_units`, specialised to the fixed replacement table
`Unit.definitions = {"": [1], "%": [0.01], "pb": [1000, "fb"]}`: a name is
expanded recursively into numerical factors (`Sum.inl`) and base unit names
(`Sum.inr`); `"fb"` is not in the table, so the expansion of `"pb"` stops
there, and any other name is a base unit of its own. -/
def getBaseUnits : String → List (ℚ ⊕ String)
  | "" => [.inl 1]
  | "%" => [.inl (1 / 100)]
  | "pb" => [.inl 1000, .inr "fb"]
  | s => [.inr s]

/-- The string branch of `Unit.__imul__`: multiply a unit by a unit name,
folding the base-unit expansion of the name into factor and exponents. -/
def PhysUnit.imulStr (u : PhysUnit) (s : String) : PhysUnit :=
  (getBaseUnits s).foldl
    (fun acc b =>
      match b with
      | .inl q => { acc with factor := acc.factor * q }
      | .inr name => { acc with units := dictInsertAdd acc.units name 1 })
    u

/-- Embedding of `Unit(s)` for a single unit-name string `s`. -/
def mkUnitStr (s : String) : PhysUnit := PhysUnit.imulStr ⟨1, []⟩ s

/-- Embedding of `Unit.__mul__` (via the `Unit` branch of `__imul__`): multiply factors and
add exponents. -/
def PhysUnit.mulU (a b : PhysUnit) : PhysUnit :=
  ⟨a.factor * b.factor, dictMergeAdd a.units b.units⟩

/-- Embedding of `Unit.inverse`: invert the factor and negate every exponent.  (For a zero
factor Python would raise ZeroDivisionError; the total model returns the ℚ
junk value `0⁻¹ = 0`, and the theorems below assume a non-zero factor.) -/
def PhysUnit.inverse (a : PhysUnit) : PhysUnit :=
  ⟨a.factor⁻¹, a.units.map (fun kv => (kv.1, -kv.2))⟩

/-- Embedding of `Unit.__truediv__`: `Unit(self, Unit(other).inverse())`. -/
def PhysUnit.divU (a b : PhysUnit) : PhysUnit := a.mulU b.inverse

/-- Embedding of `Unit.__float__`: fail unless every stored exponent is zero, else return
the factor. -/
def PhysUnit.toFloat (a : PhysUnit) : Except String ℚ :=
  if a.units.any (fun kv => kv.2 ≠ 0) then .error "Unit conversion error"
  else .ok a.factor

/-- Keys of an exponent dictionary are pairwise distinct (always true of a
Python dict). -/
def NodupKeys (d : List (String × ℤ)) : Prop := (d.map Prod.fst).Nodup

instance : DecidablePred NodupKeys := fun d =>
  inferInstanceAs (Decidable (d.map Prod.fst).Nodup)

/-! ## Table annotation model

Embedding of `susy_cross_section/base/info.py`.  Only the fields that the
grid-table builder reads are modelled. -/

/-- Embedding of `ColumnInfo`: a named column with a unit string. -/
structure ColumnInfo where
  index : ℕ
  name : String
  unit : String
deriving Repr, DecidableEq

/-- Embedding of `ParameterInfo`: a parameter column with an optional granularity.  The
constructor normalises a falsy granularity (`None` or `0`) to `None`, so a
stored granularity is never zero. -/
structure ParameterInfo where
  column : String
  granularity : Option ℚ
deriving Repr, DecidableEq

/-- One uncertainty source: a group of candidate column names together with a
type string such as `"absolute"` or `"relative,signed"` (`UncSpecType` of
`base/info.py`). -/
abbrev UncSpec := List String × String

/-- Embedding of `ValueInfo`: the value column and its positive- and negative- direction
uncertainty sources. -/
structure ValueInfo where
  column : String
  unc_p : List UncSpec
  unc_m : List UncSpec
deriving Repr, DecidableEq

/-- Embedding of `FileInfo`: the column list, the parameter list and the value list of an
annotation file. -/
structure FileInfo where
  columns : List ColumnInfo
  parameters : List ParameterInfo
  values : List ValueInfo
deriving Repr, DecidableEq

/-- Embedding of `FileInfo.get_column`: the first column with the given name.  (Python
raises KeyError when the name is unknown; validated files always contain the
name, and the total model returns a unitless dummy column then.) -/
def FileInfo.get_column (info : FileInfo) (name : String) : ColumnInfo :=
  match info.columns.find? (fun c => c.name = name) with
  | some c => c
  | none => ⟨0, name, ""⟩

/-! ## Grid-table builder

Embedding of `BaseFile` of `susy_cross_section/base/table.py`.  A raw-data row
is modelled as a function from column names to rationals; a normalized row is
the association list of the kept columns produced by
`_prepare_normalized_data`. -/

/-- A row of the raw csv data: the entry of each named column. -/
abbrev Row := String → ℚ

/-- The local function `quantize` of `_prepare_normalized_data`:
`round(value / granularity) * granularity`. -/
def quantize (v g : ℚ) : ℚ := (pyRound (v / g) : ℚ) * g

/-- Quantize one parameter column of a list of raw values. -/
def quantizeParams (xs : List ℚ) (g : ℚ) : List ℚ := xs.map (fun v => quantize v g)

/-- The row index assigned by `_prepare_normalized_data`: the tuple of the
parameter entries, each quantized when its parameter declares a granularity,
in declared parameter order. -/
def keyOf (info : FileInfo) (r : Row) : List ℚ :=
  info.parameters.map (fun p =>
    match p.granularity with
    | some g => quantize (r p.column) g
    | none => r p.column)

/-- Whether an uncertainty type string names a relative uncertainty:
`"relative" in unc_type.split(",")`. -/
def isRelType (t : String) : Bool := (splitComma t).contains "relative"

/-- Whether an uncertainty type string names a signed uncertainty:
`"signed" in unc_type.split(",")`. -/
def isSignedType (t : String) : Bool := (splitComma t).contains "signed"

/-- The set `rel_columns` of `_prepare_normalized_data`: all columns of
relative-type sources of `unc_p` and `unc_m`. -/
def relColumns (v : ValueInfo) : List String :=
  ((v.unc_p ++ v.unc_m).filter (fun su => isRelType su.2)).flatMap Prod.fst

/-- The set `abs_columns` of `_prepare_normalized_data`: all columns of
absolute-type sources of `unc_p` and `unc_m`. -/
def absColumns (v : ValueInfo) : List String :=
  ((v.unc_p ++ v.unc_m).filter (fun su => !isRelType su.2)).flatMap Prod.fst

/-- The columns of the data frame after `set_index`: the declared columns
minus the parameter columns, in declared order. -/
def nonParamCols (info : FileInfo) : List String :=
  (info.columns.map ColumnInfo.name).filter
    (fun c => ¬ (info.parameters.map ParameterInfo.column).contains c)

/-- How one kept column of the normalized data frame is produced from the raw
data: the value column is kept as is, an absolute-type uncertainty column is
scaled by a conversion factor, and a relative-type uncertainty column is
scaled by a conversion factor and by the central value of the row. -/
inductive NormCol where
  | value : NormCol
  | abs : ℚ → NormCol
  | rel : ℚ → NormCol
deriving Repr, DecidableEq

/-- The column loop of `_prepare_normalized_data` for a single column:
`pass` for the value column, `data[col] * float(unc_unit / value_unit)` for an
absolute column, `data[name] * data[col] * float(unc_unit / value_unit)` with
`unc_unit = Unit(col_unit) * value_unit` for a relative column, and `drop`
otherwise. -/
def planColumn (info : FileInfo) (v : ValueInfo) (col : String) :
    Except String (Option (String × NormCol)) :=
  let value_unit := mkUnitStr (info.get_column v.column).unit
  if col = v.column then .ok (some (col, .value))
  else if col ∈ absColumns v then
    match ((mkUnitStr (info.get_column col).unit).divU value_unit).toFloat with
    | .ok f => .ok (some (col, .abs f))
    | .error e => .error e
  else if col ∈ relColumns v then
    match (((mkUnitStr (info.get_column col).unit).mulU value_unit).divU
        value_unit).toFloat with
    | .ok f => .ok (some (col, .rel f))
    | .error e => .error e
  else .ok none

/-- Process a list of columns in order, keeping the planned ones
(the column loop of `_prepare_normalized_data`). -/
def planCols (info : FileInfo) (v : ValueInfo) :
    List String → Except String (List (String × NormCol))
  | [] => .ok []
  | col :: rest =>
      match planColumn info v col, planCols info v rest with
      | .ok (some pc), .ok acc => .ok (pc :: acc)
      | .ok none, .ok acc => .ok acc
      | .error e, _ => .error e
      | .ok _, .error e => .error e

/-- The column transformations of `_prepare_normalized_data`: the disjointness
assertion `abs_columns.isdisjoint(rel_columns)` followed by the per-column
plan of every non-parameter column. -/
def plan (info : FileInfo) (v : ValueInfo) :
    Except String (List (String × NormCol)) :=
  if ∀ c ∈ absColumns v, c ∉ relColumns v then
    planCols info v (nonParamCols info)
  else .error "AssertionError"

/-- The normalized entry of one kept column: the raw entry for the value
column, `raw * factor` for an absolute uncertainty column, and
`central * raw * factor` for a relative uncertainty column. -/
def normColApply (k : NormCol) (vcol c : String) (r : Row) : ℚ :=
  match k with
  | .value => r c
  | .abs f => r c * f
  | .rel f => r vcol * r c * f

/-- Apply the planned column transformations to one raw row. -/
def normalizeRow (pl : List (String × NormCol)) (vcol : String) (r : Row) :
    List (String × ℚ) :=
  pl.map (fun pc => (pc.1, normColApply pc.2 vcol pc.1 r))

/-- Read one entry of a normalized row (`row[c]` on a pandas Series). -/
def rowGet (l : List (String × ℚ)) (c : String) : ℚ :=
  match l.find? (fun kv => kv.1 = c) with
  | some kv => kv.2
  | none => 0

/-- The local function `calc` of `BaseFile._parse_data`: for every
uncertainty source, keep the correctly-signed candidates when the type is
signed, take the largest absolute value among them (0 if none), and combine
the per-source components by `sum(i ** 2) ** 0.5`. -/
noncomputable def calcUnc (row : List (String × ℚ)) (unc_sources : List UncSpec) (sign : ℚ) : ℝ :=
  let components : List ℚ := unc_sources.map (fun su =>
    let unc_candidates : List ℚ :=
      if isSignedType su.2 then
        (su.1.filter (fun c => 0 < rowGet row c * sign)).map (fun c => |rowGet row c|)
      else su.1.map (fun c => |rowGet row c|)
    match unc_candidates.max? with
    | some m => m
    | none => 0)
  Real.sqrt (((components.map (fun i => i ^ 2)).sum : ℚ) : ℝ)

/-- One row of a built table: the quantized parameter tuple, the central
value, and the stored entries of the columns `"unc+"` and `"unc-"`. -/
abbrev BuiltRow := List ℚ × ℚ × ℝ × ℝ

/-- Build the table of one declared value, as `_parse_data` does for one
element of `info.values`: normalize the data, copy the value column, and
store `calc(row, unc_p, +1)` into `"unc+"` and `calc(row, unc_m, -1)` into
`"unc-"` for every row. -/
noncomputable def buildValueTable (info : FileInfo) (v : ValueInfo) (raw : List Row) :
    Except String (List BuiltRow) := do
  let pl ← plan info v
  let rows := raw.map (fun r => (keyOf info r, normalizeRow pl v.column r))
  pure (rows.map (fun kr =>
    (kr.1, rowGet kr.2 v.column, calcUnc kr.2 v.unc_p 1, calcUnc kr.2 v.unc_m (-1))))

/-- Build errors of `BaseFile`: a unit-conversion or assertion failure during
normalization, or the `ValueError("Found duplicated entries: %s, %s", key, d)`
of `BaseFile.validate`, which carries the name of the affected table and the
colliding key. -/
inductive BuildErr where
  | unitError : String → BuildErr
  | duplicatedEntries : String → List ℚ → BuildErr
deriving Repr, DecidableEq

/-- The first entry of a key list that repeats an earlier entry (the first
element of `table.index[table.index.duplicated()]`, which marks every
occurrence whose key already appeared before it). -/
def firstDupAux (seen : List (List ℚ)) : List (List ℚ) → Option (List ℚ)
  | [] => none
  | k :: rest => if seen.contains k then some k else firstDupAux (k :: seen) rest

/-- Embedding of `BaseFile.validate`: scan the built tables in order and raise on the first
duplicated index entry, naming the table and the entry. -/
def validateFile (tables : List (String × List BuiltRow)) : Except BuildErr Unit :=
  match tables.findSome? (fun nt =>
      (firstDupAux [] (nt.2.map Prod.fst)).map (fun k => (nt.1, k))) with
  | some nk => .error (.duplicatedEntries nk.1 nk.2)
  | none => .ok ()

/-- Embedding of `BaseFile._parse_data`: build one table per declared value. -/
noncomputable def parseData (info : FileInfo) (raw : List Row) :
    Except BuildErr (List (String × List BuiltRow)) :=
  info.values.mapM (fun v =>
    match buildValueTable info v raw with
    | .ok t => .ok (v.column, t)
    | .error e => .error (.unitError e))

/-- Embedding of `BaseFile.__init__` after reading the files: `_parse_data` followed by
`validate`. -/
noncomputable def buildFile (info : FileInfo) (raw : List Row) :
    Except BuildErr (List (String × List BuiltRow)) := do
  let tables ← parseData info raw
  validateFile tables
  pure tables

/-! ## Value formatting

Embedding of `value_format` of `susy_cross_section/utility.py`. The optional
`unit` argument is falsy (no suffix) when it is `none` or the empty string. -/

/-- Python `"{:.2%}"`: a ratio as a percentage with two decimal digits. -/
def pyFormatPercent (q : ℚ) : String := formatFixed (q * 100) 2 ++ "%"

/-- The `" {unit}"` suffix of `value_format`. -/
def unitSuffix (unit : Option String) : String :=
  match unit with
  | some u => if u = "" then "" else " " ++ u
  | none => ""

/-- Embedding of `value_format(value, unc_p, unc_m, unit, relative)` of
`susy_cross_section/utility.py`. -/
def value_format (value unc_p unc_m : ℚ) (unit : Option String)
    (relative : Bool) : String :=
  let delta : ℚ := min |unc_p| |unc_m|
  let suffix : String := unitSuffix unit
  if relative then
    pyFormatG value ++ suffix ++ " +" ++ pyFormatPercent (unc_p / value) ++
      " -" ++ pyFormatPercent (|unc_m| / value)
  else if delta = 0 then
    let body : String := pyFormatG value ++ " +0 -0"
    if suffix = "" then body else "(" ++ body ++ ")" ++ suffix
  else
    let v_order : ℤ := pyTruncLog10 value
    if 3 < |v_order| then
      let suffix2 : String := "*1e" ++ toString v_order ++ suffix
      let divider : ℚ := 10 ^ v_order
      let disp_digits : ℕ := (max (truncShift (delta / value) + 2) 3).toNat
      let body : String :=
        formatFixed (value / divider) disp_digits ++ " +" ++
          formatFixed (unc_p / divider) disp_digits ++ " -" ++
          formatFixed |unc_m / divider| disp_digits
      "(" ++ body ++ ")" ++ suffix2
    else
      let disp_digits : ℕ :=
        (max (truncShift delta + (if 1 < delta then 1 else 2)) 0).toNat
      let body : String :=
        formatFixed value disp_digits ++ " +" ++
          formatFixed unc_p disp_digits ++ " -" ++
          formatFixed |unc_m| disp_digits
      if suffix = "" then body else "(" ++ body ++ ")" ++ suffix

/-- The formatting rule exactly as claim C6 words it, with `floor` where the
claim says floor: `order = floor(log10 value)`, scientific digit count
`max(floor(-log10(delta / value) - 0.005) + 2, 3)` and fixed-point digit count
`max(floor(-log10 delta - 0.005) + (1 if delta > 1 else 2), 0)`. -/
def value_format_floorSpec (value unc_p unc_m : ℚ) (unit : Option String) : String :=
  let delta : ℚ := min |unc_p| |unc_m|
  let suffix : String := unitSuffix unit
  if delta = 0 then
    let body : String := pyFormatG value ++ " +0 -0"
    if suffix = "" then body else "(" ++ body ++ ")" ++ suffix
  else
    let order : ℤ := Int.log 10 value
    if 3 < |order| then
      let digits : ℕ := (max (floorShift (delta / value) + 2) 3).toNat
      let body : String :=
        formatFixed (value / 10 ^ order) digits ++ " +" ++
          formatFixed (unc_p / 10 ^ order) digits ++ " -" ++
          formatFixed |unc_m / 10 ^ order| digits
      "(" ++ body ++ ")" ++ "*1e" ++ toString order ++ suffix
    else
      let digits : ℕ :=
        (max (floorShift delta + (if 1 < delta then 1 else 2)) 0).toNat
      let body : String :=
        formatFixed value digits ++ " +" ++ formatFixed unc_p digits ++ " -" ++
          formatFixed |unc_m| digits
      if suffix = "" then body else "(" ++ body ++ ")" ++ suffix

/-- The formatting rule of claim C6 amended at the three places where the
code truncates toward zero (Python `int(...)`) instead of taking a floor:
`order = int(log10 value)` and digit counts
`max(int(-log10(delta / value) - 0.005) + 2, 3)` and
`max(int(-log10 delta - 0.005) + (1 if delta > 1 else 2), 0)`. -/
def value_format_truncSpec (value unc_p unc_m : ℚ) (unit : Option String) : String :=
  let delta : ℚ := min |unc_p| |unc_m|
  let suffix : String := unitSuffix unit
  if delta = 0 then
    let body : String := pyFormatG value ++ " +0 -0"
    if suffix = "" then body else "(" ++ body ++ ")" ++ suffix
  else
    let order : ℤ := pyTruncLog10 value
    if 3 < |order| then
      let digits : ℕ := (max (truncShift (delta / value) + 2) 3).toNat
      let body : String :=
        formatFixed (value / 10 ^ order) digits ++ " +" ++
          formatFixed (unc_p / 10 ^ order) digits ++ " -" ++
          formatFixed |unc_m / 10 ^ order| digits
      "(" ++ body ++ ")" ++ "*1e" ++ toString order ++ suffix
    else
      let digits : ℕ :=
        (max (truncShift delta + (if 1 < delta then 1 else 2)) 0).toNat
      let body : String :=
        formatFixed value digits ++ " +" ++ formatFixed unc_p digits ++ " -" ++
          formatFixed |unc_m| digits
      if suffix = "" then body else "(" ++ body ++ ")" ++ suffix

/-! ## Interpolation result objects

Embedding of the class `Interpolation` of
`susy_cross_section/interp/interpolator.py` and of the class
`InterpolationWithUncertainties` of `susy_cross_section/interpolator.py`.
An interpolating function maps a parameter tuple to a value; the keyword /
positional argument plumbing of `_interpret_args` is outside the model. -/

/-- A continuous function of a parameter tuple (`InterpType`). -/
abbrev InterpFn := List ℝ → ℝ

/-- A series to be interpolated: one real value per grid key. -/
abbrev Series := List (List ℚ × ℝ)

/-- The class `Interpolation` of `interp/interpolator.py`: three fitted
curves. -/
structure Interpolation where
  f0 : InterpFn
  fp : InterpFn
  fm : InterpFn

/-- Embedding of `Interpolation.unc_p_at`: `self._fp(x) - self._f0(x)`. -/
noncomputable def Interpolation.unc_p_at (ip : Interpolation) (x : List ℝ) : ℝ :=
  ip.fp x - ip.f0 x

/-- Embedding of `Interpolation.unc_m_at`: `-(self._f0(x) - self._fm(x))`. -/
noncomputable def Interpolation.unc_m_at (ip : Interpolation) (x : List ℝ) : ℝ :=
  -(ip.f0 x - ip.fm x)

/-- Embedding of `Interpolation.tuple_at`: `(f0(x), unc_p_at(x), unc_m_at(x))`. -/
noncomputable def Interpolation.tuple_at (ip : Interpolation) (x : List ℝ) :
    ℝ × ℝ × ℝ :=
  (ip.f0 x, ip.unc_p_at x, ip.unc_m_at x)

/-- The column `"value"` of a built table, as a series over the grid keys. -/
def valueSeries (table : List BuiltRow) : Series :=
  table.map (fun e => (e.1, (e.2.1 : ℝ)))

/-- The series `table["value"] + table["unc+"]`. -/
def upperSeries (table : List BuiltRow) : Series :=
  table.map (fun e => (e.1, (e.2.1 : ℝ) + e.2.2.1))

/-- The series `table["value"] - abs(table["unc-"])`. -/
def lowerSeries (table : List BuiltRow) : Series :=
  table.map (fun e => (e.1, (e.2.1 : ℝ) - |e.2.2.2|))

/-- Embedding of `AbstractInterpolator.interpolate`: apply the strategy `_interpolate`
(a parameter of the model) to the three series `value`, `value + unc+` and
`value - abs(unc-)` and package the results. -/
def interpolate (interpStrategy : Series → InterpFn)
    (table : List BuiltRow) : Interpolation :=
  { f0 := interpStrategy (valueSeries table)
    fp := interpStrategy (upperSeries table)
    fm := interpStrategy (lowerSeries table) }

/-- The class `InterpolationWithUncertainties` of
`susy_cross_section/interpolator.py` (the variant whose `__call__` accepts an
`unc_level` keyword). -/
structure InterpolationWithUncertainties where
  f0 : InterpFn
  fp : InterpFn
  fm : InterpFn

/-- Embedding of `InterpolationWithUncertainties.unc_p_at`: `fp(x) - f0(x)`. -/
noncomputable def InterpolationWithUncertainties.unc_p_at
    (f : InterpolationWithUncertainties) (x : List ℝ) : ℝ :=
  f.fp x - f.f0 x

/-- Embedding of `InterpolationWithUncertainties.unc_m_at`: `-(f0(x) - fm(x))`. -/
noncomputable def InterpolationWithUncertainties.unc_m_at
    (f : InterpolationWithUncertainties) (x : List ℝ) : ℝ :=
  -(f.f0 x - f.fm x)

/-- Embedding of `InterpolationWithUncertainties.__call__(*args, unc_level)`:
`f0 + (unc_level * unc_p_at if unc_level > 0 else
unc_level * abs(unc_m_at) if unc_level < 0 else 0)`. -/
noncomputable def InterpolationWithUncertainties.callAt
    (f : InterpolationWithUncertainties) (x : List ℝ) (unc_level : ℝ) : ℝ :=
  f.f0 x +
    (if 0 < unc_level then unc_level * f.unc_p_at x
     else if unc_level < 0 then unc_level * |f.unc_m_at x|
     else 0)

/-! ## General lemmas -/

/-- The function `Int.log` base 10 is characterised by its bracketing powers. -/
theorem int_log10_eq {r : ℚ} {k : ℤ} (hr : 0 < r)
    (h1 : (10 : ℚ) ^ k ≤ r) (h2 : r < (10 : ℚ) ^ (k + 1)) : Int.log 10 r = k := by
  have hb : 1 < (10 : ℕ) := by norm_num
  have hA : ((10 : ℕ) : ℚ) ^ Int.log 10 r ≤ r := Int.zpow_log_le_self hb hr
  have hB : r < ((10 : ℕ) : ℚ) ^ (Int.log 10 r + 1) := Int.lt_zpow_succ_log_self hb r
  push_cast at hA hB
  by_contra hne
  rcases lt_or_gt_of_ne hne with h | h
  · have hk : Int.log 10 r + 1 ≤ k := by omega
    have : (10 : ℚ) ^ (Int.log 10 r + 1) ≤ (10 : ℚ) ^ k :=
      zpow_le_zpow_right₀ (by norm_num) hk
    linarith
  · have hk : k + 1 ≤ Int.log 10 r := by omega
    have : (10 : ℚ) ^ (k + 1) ≤ (10 : ℚ) ^ Int.log 10 r :=
      zpow_le_zpow_right₀ (by norm_num) hk
    linarith

/-- Rounding an integer returns it unchanged. -/
theorem pyRound_intCast (n : ℤ) : pyRound (n : ℚ) = n := by
  unfold pyRound
  norm_num

/-! ## Claim C8: granularity quantization and its idempotence -/

/-- Quantizing an already-quantized value changes nothing. -/
theorem quantize_idem (v g : ℚ) (hg : 0 < g) :
    quantize (quantize v g) g = quantize v g := by
  unfold quantize
  rw [mul_div_assoc, div_self (ne_of_gt hg), mul_one, pyRound_intCast]

/-- Claim C8: granularity quantization maps a raw parameter value `v` to
`round(v / granularity) * granularity`, and this quantization is idempotent:
re-quantizing an already-quantized parameter list yields exactly the same grid
keys, for every parameter list and every positive granularity. -/
theorem C8_quantization_idempotent (xs : List ℚ) (g : ℚ) (hg : 0 < g) :
    (∀ v ∈ xs, quantize v g = (pyRound (v / g) : ℚ) * g) ∧
    quantizeParams (quantizeParams xs g) g = quantizeParams xs g := by
  constructor
  · intro v _
    rfl
  · unfold quantizeParams
    rw [List.map_map]
    apply List.map_congr_left
    intro v _
    exact quantize_idem v g hg

/-- Witness for C8 at the parameter list `[6/5, 3]` and granularity `1/2`. -/
theorem C8_quantization_idempotent_witness :
    (0 : ℚ) < 1 / 2 ∧
      ((∀ v ∈ [(6 : ℚ) / 5, 3], quantize v (1 / 2) = (pyRound (v / (1 / 2)) : ℚ) * (1 / 2)) ∧
        quantizeParams (quantizeParams [(6 : ℚ) / 5, 3] (1 / 2)) (1 / 2) =
          quantizeParams [(6 : ℚ) / 5, 3] (1 / 2)) :=
  ⟨by norm_num, C8_quantization_idempotent [(6 : ℚ) / 5, 3] (1 / 2) (by norm_num)⟩

/-! ## Claim C2: interpolation builds three curves and derives uncertainties -/

/-- Claim C2: `interpolate(table)` builds exactly three interpolating
functions, from the series `value`, `value + unc+` and `value - abs(unc-)`;
the uncertainties returned at a query point are differences of these
independently interpolated curves, `unc_p_at(x) = fp(x) - f0(x)` and
`unc_m_at(x) = -(f0(x) - fm(x))`, and `tuple_at` packages
`(f0(x), unc_p_at(x), unc_m_at(x))`; the uncertainty columns themselves are
never passed to the interpolation strategy. -/
theorem C2_interpolate_three_curves (interpStrategy : Series → InterpFn)
    (table : List BuiltRow) (x : List ℝ) :
    (interpolate interpStrategy table).f0 = interpStrategy (valueSeries table) ∧
    (interpolate interpStrategy table).fp = interpStrategy (upperSeries table) ∧
    (interpolate interpStrategy table).fm = interpStrategy (lowerSeries table) ∧
    (interpolate interpStrategy table).unc_p_at x =
      interpStrategy (upperSeries table) x - interpStrategy (valueSeries table) x ∧
    (interpolate interpStrategy table).unc_m_at x =
      -(interpStrategy (valueSeries table) x - interpStrategy (lowerSeries table) x) ∧
    (interpolate interpStrategy table).tuple_at x =
      ((interpolate interpStrategy table).f0 x,
        (interpolate interpStrategy table).unc_p_at x,
        (interpolate interpStrategy table).unc_m_at x) :=
  ⟨rfl, rfl, rfl, rfl, rfl, rfl⟩

/-! ## Claim C5: the `unc_level` convenience call -/

/-- Claim C5: calling an interpolation result directly with an uncertainty
level returns the central value for level 0, the central value plus
`level * unc_p_at` for a positive level, and the central value plus
`level * abs(unc_m_at)` for a negative level. -/
theorem C5_call_unc_level (f : InterpolationWithUncertainties) (x : List ℝ)
    (unc_level : ℝ) :
    (unc_level = 0 → f.callAt x unc_level = f.f0 x) ∧
    (0 < unc_level →
      f.callAt x unc_level = f.f0 x + unc_level * f.unc_p_at x) ∧
    (unc_level < 0 →
      f.callAt x unc_level = f.f0 x + unc_level * |f.unc_m_at x|) := by
  unfold InterpolationWithUncertainties.callAt
  refine ⟨fun h0 => ?_, fun hp => ?_, fun hm => ?_⟩
  · rw [if_neg (by simp [h0]), if_neg (by simp [h0])]
    ring
  · rw [if_pos hp]
  · rw [if_neg (by linarith), if_pos hm]

/-- Witness for C5: a concrete interpolation result with constant curves,
queried at level 1. -/
theorem C5_call_unc_level_witness :
    (0 : ℝ) < 1 ∧
      (InterpolationWithUncertainties.mk (fun _ => 2) (fun _ => 5) (fun _ => 1)).callAt
          [0] 1 =
        (InterpolationWithUncertainties.mk (fun _ => 2) (fun _ => 5) (fun _ => 1)).f0 [0] +
          1 * (InterpolationWithUncertainties.mk (fun _ => 2) (fun _ => 5)
              (fun _ => 1)).unc_p_at [0] :=
  ⟨one_pos,
    (C5_call_unc_level (InterpolationWithUncertainties.mk (fun _ => 2) (fun _ => 5)
      (fun _ => 1)) [0] 1).2.1 one_pos⟩

/-! ## Dictionary lemmas for the unit algebra -/

theorem dictGet_nil (k : String) : dictGet [] k = 0 := rfl

theorem dictGet_cons (kv : String × ℤ) (d : List (String × ℤ)) (k : String) :
    dictGet (kv :: d) k = if kv.1 = k then kv.2 else dictGet d k := by
  unfold dictGet
  rw [List.find?_cons]
  by_cases h : kv.1 = k
  · simp [h]
  · simp [h]

theorem dictGet_eq_zero_of_not_mem {d : List (String × ℤ)} {k : String}
    (h : k ∉ d.map Prod.fst) : dictGet d k = 0 := by
  induction d with
  | nil => rfl
  | cons kv rest ih =>
      rw [dictGet_cons]
      simp only [List.map_cons, List.mem_cons] at h
      push_neg at h
      rw [if_neg (fun hc => h.1 hc.symm), ih h.2]

theorem mem_keys_of_any {d : List (String × ℤ)} {k0 : String}
    (h : d.any (fun kv => kv.1 = k0) = true) : k0 ∈ d.map Prod.fst := by
  simp only [List.any_eq_true, decide_eq_true_eq] at h
  rcases h with ⟨kv, hkv, hfst⟩
  exact hfst ▸ List.mem_map_of_mem Prod.fst hkv

theorem any_of_mem_keys {d : List (String × ℤ)} {k0 : String}
    (h : k0 ∈ d.map Prod.fst) : d.any (fun kv => kv.1 = k0) = true := by
  simp only [List.any_eq_true, decide_eq_true_eq]
  rcases List.mem_map.mp h with ⟨kv, hkv, hfst⟩
  exact ⟨kv, hkv, hfst⟩

theorem dictGet_mapUpdate_other (d : List (String × ℤ)) (k0 : String) (v0 : ℤ)
    (k : String) (hk : k ≠ k0) :
    dictGet (d.map (fun kv => if kv.1 = k0 then (kv.1, kv.2 + v0) else kv)) k =
      dictGet d k := by
  induction d with
  | nil => rfl
  | cons kv rest ih =>
      rw [List.map_cons, dictGet_cons, dictGet_cons]
      by_cases h1 : kv.1 = k0
      · have hne : kv.1 ≠ k := fun hc => hk ((hc.symm.trans h1))
        rw [if_pos h1]
        show (if kv.1 = k then kv.2 + v0 else _) = _
        rw [if_neg hne, if_neg hne, ih]
      · rw [if_neg h1]
        by_cases h2 : kv.1 = k
        · rw [if_pos h2, if_pos h2]
        · rw [if_neg h2, if_neg h2, ih]

theorem dictGet_mapUpdate_self (d : List (String × ℤ)) (k0 : String) (v0 : ℤ)
    (hany : d.any (fun kv => kv.1 = k0) = true) :
    dictGet (d.map (fun kv => if kv.1 = k0 then (kv.1, kv.2 + v0) else kv)) k0 =
      dictGet d k0 + v0 := by
  induction d with
  | nil => simp at hany
  | cons kv rest ih =>
      rw [List.map_cons, dictGet_cons, dictGet_cons]
      by_cases h1 : kv.1 = k0
      · rw [if_pos h1]
        show (if kv.1 = k0 then kv.2 + v0 else _) = _
        rw [if_pos h1, if_pos h1]
      · have hrest : rest.any (fun kv => kv.1 = k0) = true := by
          simp only [List.any_cons, Bool.or_eq_true, decide_eq_true_eq] at hany
          rcases hany with h | h
          · exact absurd h h1
          · simpa using h
        rw [if_neg h1]
        show (if kv.1 = k0 then kv.2 else _) = _
        rw [if_neg h1, ih hrest, if_neg h1]

theorem dictGet_insertAdd_self (d : List (String × ℤ)) (k0 : String) (v0 : ℤ) :
    dictGet (dictInsertAdd d k0 v0) k0 = dictGet d k0 + v0 := by
  unfold dictInsertAdd
  by_cases hany : d.any (fun kv => kv.1 = k0)
  · rw [if_pos hany]
    exact dictGet_mapUpdate_self d k0 v0 hany
  · rw [if_neg hany]
    have hnm : k0 ∉ d.map Prod.fst := fun hmem => hany (any_of_mem_keys hmem)
    rw [dictGet_eq_zero_of_not_mem hnm, zero_add]
    induction d with
    | nil => simp [dictGet_cons]
    | cons kv rest ih =>
        rw [List.cons_append, dictGet_cons]
        have h1 : kv.1 ≠ k0 := fun h => hnm (by simp [h])
        rw [if_neg h1]
        apply ih
        · intro hc
          apply hany
          simp only [List.any_cons, Bool.or_eq_true]
          right
          exact hc
        · intro hc
          exact hnm (by simp only [List.map_cons, List.mem_cons]; right; exact hc)

theorem dictGet_insertAdd_other (d : List (String × ℤ)) (k0 : String) (v0 : ℤ)
    (k : String) (hk : k ≠ k0) :
    dictGet (dictInsertAdd d k0 v0) k = dictGet d k := by
  unfold dictInsertAdd
  by_cases hany : d.any (fun kv => kv.1 = k0)
  · rw [if_pos hany]
    exact dictGet_mapUpdate_other d k0 v0 k hk
  · rw [if_neg hany]
    induction d with
    | nil =>
        rw [List.nil_append, dictGet_cons, dictGet_nil]
        exact if_neg (fun h => hk h.symm)
    | cons kv rest ih =>
        rw [List.cons_append, dictGet_cons, dictGet_cons]
        by_cases h2 : kv.1 = k
        · rw [if_pos h2, if_pos h2]
        · rw [if_neg h2, if_neg h2]
          exact ih (by intro hc; apply hany; simp only [List.any_cons]; simp [hc])

theorem dictGet_insertAdd (d : List (String × ℤ)) (k0 : String) (v0 : ℤ)
    (k : String) :
    dictGet (dictInsertAdd d k0 v0) k =
      dictGet d k + if k = k0 then v0 else 0 := by
  by_cases hk : k = k0
  · subst hk
    rw [dictGet_insertAdd_self, if_pos rfl]
  · rw [dictGet_insertAdd_other d k0 v0 k hk, if_neg hk, add_zero]

theorem nodupKeys_insertAdd {d : List (String × ℤ)} (hd : NodupKeys d)
    (k0 : String) (v0 : ℤ) : NodupKeys (dictInsertAdd d k0 v0) := by
  unfold NodupKeys at hd ⊢
  unfold dictInsertAdd
  by_cases hany : d.any (fun kv => kv.1 = k0)
  · rw [if_pos hany, List.map_map]
    have heq : (d.map (Prod.fst ∘ fun kv => if kv.1 = k0 then (kv.1, kv.2 + v0) else kv)) =
        d.map Prod.fst := by
      apply List.map_congr_left
      intro kv _
      by_cases h : kv.1 = k0 <;> simp [h]
    rw [heq]
    exact hd
  · rw [if_neg hany, List.map_append]
    have hnm : k0 ∉ d.map Prod.fst := fun hmem => hany (any_of_mem_keys hmem)
    rw [List.nodup_append]
    refine ⟨hd, List.nodup_singleton k0, ?_⟩
    intro x hx hx2
    simp only [List.map_cons, List.map_nil, List.mem_singleton] at hx2
    subst hx2
    exact hnm hx

theorem nodupKeys_mergeAdd {a : List (String × ℤ)} (ha : NodupKeys a)
    (b : List (String × ℤ)) : NodupKeys (dictMergeAdd a b) := by
  induction b generalizing a with
  | nil => exact ha
  | cons kv rest ih =>
      unfold dictMergeAdd at ih ⊢
      rw [List.foldl_cons]
      exact ih (nodupKeys_insertAdd ha kv.1 kv.2)

theorem dictGet_mergeAdd (a : List (String × ℤ)) {b : List (String × ℤ)}
    (hb : NodupKeys b) (k : String) :
    dictGet (dictMergeAdd a b) k = dictGet a k + dictGet b k := by
  induction b generalizing a with
  | nil => simp [dictMergeAdd, dictGet_nil]
  | cons kv rest ih =>
      unfold NodupKeys at hb
      simp only [List.map_cons, List.nodup_cons] at hb
      unfold dictMergeAdd at ih ⊢
      rw [List.foldl_cons, ih (dictInsertAdd a kv.1 kv.2) hb.2,
        dictGet_insertAdd, dictGet_cons]
      by_cases hk : k = kv.1
      · subst hk
        rw [if_pos rfl, if_pos rfl,
          dictGet_eq_zero_of_not_mem hb.1]
        ring
      · rw [if_neg hk, if_neg (fun h => hk h.symm), add_zero]

theorem dictGet_negMap (d : List (String × ℤ)) (k : String) :
    dictGet (d.map (fun kv => (kv.1, -kv.2))) k = -dictGet d k := by
  induction d with
  | nil => simp [dictGet_nil]
  | cons kv rest ih =>
      rw [List.map_cons, dictGet_cons, dictGet_cons]
      by_cases h : kv.1 = k
      · simp [h]
      · simp only [h, if_false, if_neg h]
        exact ih

theorem nodupKeys_negMap {d : List (String × ℤ)} (hd : NodupKeys d) :
    NodupKeys (d.map (fun kv => (kv.1, -kv.2))) := by
  unfold NodupKeys at hd ⊢
  rw [List.map_map]
  exact hd

theorem dictGet_of_mem {d : List (String × ℤ)} (hd : NodupKeys d)
    {kv : String × ℤ} (hkv : kv ∈ d) : dictGet d kv.1 = kv.2 := by
  induction d with
  | nil => cases hkv
  | cons hv rest ih =>
      unfold NodupKeys at hd
      simp only [List.map_cons, List.nodup_cons] at hd
      rw [dictGet_cons]
      rcases List.mem_cons.mp hkv with h | h
      · subst h
        rw [if_pos rfl]
      · have hne : hv.1 ≠ kv.1 := by
          intro hc
          exact hd.1 (hc ▸ List.mem_map_of_mem Prod.fst h)
        rw [if_neg hne]
        exact ih hd.2 h

/-! ## Claim C9: unit round-trips and scalar reduction -/

theorem mulU_factor (a b : PhysUnit) : (a.mulU b).factor = a.factor * b.factor := rfl

theorem mulU_units (a b : PhysUnit) : (a.mulU b).units = dictMergeAdd a.units b.units := rfl

theorem divU_factor (a b : PhysUnit) : (a.divU b).factor = a.factor * b.factor⁻¹ := rfl

theorem divU_units (a b : PhysUnit) :
    (a.divU b).units =
      dictMergeAdd a.units (b.units.map (fun kv => (kv.1, -kv.2))) := rfl

theorem toFloat_ok_of_allZero (a : PhysUnit) (h : ∀ kv ∈ a.units, kv.2 = 0) :
    a.toFloat = .ok a.factor := by
  unfold PhysUnit.toFloat
  rw [if_neg]
  intro hc
  simp only [List.any_eq_true, decide_eq_true_eq] at hc
  rcases hc with ⟨kv, hkv, hne⟩
  exact hne (h kv hkv)

theorem toFloat_error_of_exZero (a : PhysUnit) (h : ∃ kv ∈ a.units, kv.2 ≠ 0) :
    a.toFloat = .error "Unit conversion error" := by
  unfold PhysUnit.toFloat
  rw [if_pos]
  simp only [List.any_eq_true, decide_eq_true_eq]
  exact h

theorem divU_units_allZero {u : PhysUnit} (hn : NodupKeys u.units) :
    ∀ kv ∈ (u.divU u).units, kv.2 = 0 := by
  intro kv hkv
  rw [divU_units] at hkv
  have hmerged : NodupKeys (dictMergeAdd u.units
      (u.units.map (fun kv => (kv.1, -kv.2)))) := nodupKeys_mergeAdd hn _
  rw [← dictGet_of_mem hmerged hkv,
    dictGet_mergeAdd u.units (nodupKeys_negMap hn), dictGet_negMap]
  ring

/-- Claim C9: `to_scalar(divide(u, u)) = 1` for every unit with a non-zero
factor; `divide(multiply(a, b), b)` is commensurable with `a` (equal exponent
maps) and reduces to `1.0` against `a`; and reduction of a unit to a scalar
succeeds, returning the accumulated factor, exactly when every stored
base-unit exponent is zero, and fails with the dimension-mismatch error
otherwise. -/
theorem C9_unit_algebra :
    (∀ u : PhysUnit, u.factor ≠ 0 → NodupKeys u.units →
      (u.divU u).toFloat = .ok 1) ∧
    (∀ a b : PhysUnit, a.factor ≠ 0 → b.factor ≠ 0 →
      NodupKeys a.units → NodupKeys b.units →
      (∀ k, dictGet ((a.mulU b).divU b).units k = dictGet a.units k) ∧
        (((a.mulU b).divU b).divU a).toFloat = .ok 1) ∧
    (∀ u : PhysUnit,
      (u.toFloat = .ok u.factor ↔ ∀ kv ∈ u.units, kv.2 = 0) ∧
        ((∃ kv ∈ u.units, kv.2 ≠ 0) →
          u.toFloat = .error "Unit conversion error")) := by
  refine ⟨?_, ?_, ?_⟩
  · intro u hf hn
    rw [toFloat_ok_of_allZero _ (divU_units_allZero hn), divU_factor,
      mul_inv_cancel₀ hf]
  · intro a b hfa hfb hna hnb
    have hget : ∀ k, dictGet ((a.mulU b).divU b).units k = dictGet a.units k := by
      intro k
      rw [divU_units, mulU_units,
        dictGet_mergeAdd _ (nodupKeys_negMap hnb), dictGet_negMap,
        dictGet_mergeAdd _ hnb]
      ring
    refine ⟨hget, ?_⟩
    have hnabb : NodupKeys ((a.mulU b).divU b).units := by
      rw [divU_units, mulU_units]
      exact nodupKeys_mergeAdd (nodupKeys_mergeAdd hna b.units) _
    have hzero : ∀ kv ∈ (((a.mulU b).divU b).divU a).units, kv.2 = 0 := by
      intro kv hkv
      rw [divU_units] at hkv
      have hall : NodupKeys (dictMergeAdd ((a.mulU b).divU b).units
          (a.units.map (fun kv => (kv.1, -kv.2)))) := nodupKeys_mergeAdd hnabb _
      rw [← dictGet_of_mem hall hkv,
        dictGet_mergeAdd _ (nodupKeys_negMap hna), dictGet_negMap, hget]
      ring
    rw [toFloat_ok_of_allZero _ hzero, divU_factor, divU_factor, mulU_factor,
      show a.factor * b.factor * b.factor⁻¹ * a.factor⁻¹ = 1 by field_simp]
  · intro u
    constructor
    · constructor
      · intro hok kv hkv
        by_contra hne
        rw [toFloat_error_of_exZero u ⟨kv, hkv, hne⟩] at hok
        cases hok
      · exact toFloat_ok_of_allZero u
    · exact toFloat_error_of_exZero u

/-- Witness for C9 at the units `Unit("pb")` and `Unit("%")`: both have
non-zero factors and well-formed exponent dictionaries. -/
theorem C9_unit_algebra_witness :
    ((mkUnitStr "pb").factor ≠ 0 ∧ NodupKeys (mkUnitStr "pb").units ∧
      (mkUnitStr "%").factor ≠ 0 ∧ NodupKeys (mkUnitStr "%").units) ∧
    ((mkUnitStr "pb").divU (mkUnitStr "pb")).toFloat = .ok 1 ∧
    (∀ k, dictGet (((mkUnitStr "pb").mulU (mkUnitStr "%")).divU
        (mkUnitStr "%")).units k = dictGet (mkUnitStr "pb").units k) ∧
    ((((mkUnitStr "pb").mulU (mkUnitStr "%")).divU
        (mkUnitStr "%")).divU (mkUnitStr "pb")).toFloat = .ok 1 := by
  have h1 : (mkUnitStr "pb").factor ≠ 0 := by
    rw [show (mkUnitStr "pb").factor = 1 * 1000 from rfl]
    norm_num
  have h2 : NodupKeys (mkUnitStr "pb").units := by
    rw [show (mkUnitStr "pb").units = [("fb", (1 : ℤ))] from rfl]
    simp [NodupKeys]
  have h3 : (mkUnitStr "%").factor ≠ 0 := by
    rw [show (mkUnitStr "%").factor = 1 * (1 / 100) from rfl]
    norm_num
  have h4 : NodupKeys (mkUnitStr "%").units := by
    rw [show (mkUnitStr "%").units = ([] : List (String × ℤ)) from rfl]
    simp [NodupKeys]
  refine ⟨⟨h1, h2, h3, h4⟩, ?_, ?_, ?_⟩
  · exact C9_unit_algebra.1 (mkUnitStr "pb") h1 h2
  · exact (C9_unit_algebra.2.1 (mkUnitStr "pb") (mkUnitStr "%") h1 h3 h2 h4).1
  · exact (C9_unit_algebra.2.1 (mkUnitStr "pb") (mkUnitStr "%") h1 h3 h2 h4).2

/-! ## Claim C1: the three-level uncertainty combination rule -/

/-- The three-level rule of claim C1, stated directly on a raw-data row: for
every uncertainty-source group, candidates are the group columns converted
into the unit of the value column (and multiplied by the central value of the
row for relative types); if the type contains `signed`, only candidates whose
converted entry has the requested sign survive; the group contribution is the
largest absolute value among surviving candidates (0 if none), and the group
contributions are combined by quadrature sum. -/
noncomputable def specCombinedUnc (vcol : String) (fAbs fRel : String → ℚ)
    (r : Row) (sources : List UncSpec) (sign : ℚ) : ℝ :=
  Real.sqrt (((sources.map (fun su =>
    (match ((if isSignedType su.2 then
        su.1.filter (fun c =>
          0 < (if isRelType su.2 then r vcol * r c * fRel c else r c * fAbs c) * sign)
      else su.1).map (fun c =>
        |if isRelType su.2 then r vcol * r c * fRel c else r c * fAbs c|)).max? with
      | some m => m
      | none => 0) ^ 2)).sum : ℚ) : ℝ)

/-- The column plan, resolved: which `NormCol` the builder assigns to each
kept column once all unit conversions are known. -/
def planFnPure (v : ValueInfo) (fAbs fRel : String → ℚ) (col : String) :
    Option (String × NormCol) :=
  if col = v.column then some (col, .value)
  else if col ∈ absColumns v then some (col, .abs (fAbs col))
  else if col ∈ relColumns v then some (col, .rel (fRel col))
  else none

theorem planFnPure_fst {v : ValueInfo} {fAbs fRel : String → ℚ} {col : String}
    {pc : String × NormCol} (h : planFnPure v fAbs fRel col = some pc) :
    pc.1 = col := by
  unfold planFnPure at h
  by_cases h1 : col = v.column
  · rw [if_pos h1] at h
    cases h
    rfl
  · rw [if_neg h1] at h
    by_cases h2 : col ∈ absColumns v
    · rw [if_pos h2] at h
      cases h
      rfl
    · rw [if_neg h2] at h
      by_cases h3 : col ∈ relColumns v
      · rw [if_pos h3] at h
        cases h
        rfl
      · rw [if_neg h3] at h
        cases h

theorem planColumn_eq_planFnPure (info : FileInfo) (v : ValueInfo)
    (fAbs fRel : String → ℚ)
    (habs : ∀ c ∈ absColumns v,
      ((mkUnitStr (info.get_column c).unit).divU
        (mkUnitStr (info.get_column v.column).unit)).toFloat = .ok (fAbs c))
    (hrel : ∀ c ∈ relColumns v,
      (((mkUnitStr (info.get_column c).unit).mulU
          (mkUnitStr (info.get_column v.column).unit)).divU
        (mkUnitStr (info.get_column v.column).unit)).toFloat = .ok (fRel c))
    (col : String) :
    planColumn info v col = .ok (planFnPure v fAbs fRel col) := by
  unfold planColumn planFnPure
  by_cases h1 : col = v.column
  · rw [if_pos h1, if_pos h1]
  · rw [if_neg h1, if_neg h1]
    by_cases h2 : col ∈ absColumns v
    · rw [if_pos h2, if_pos h2, habs col h2]
    · rw [if_neg h2, if_neg h2]
      by_cases h3 : col ∈ relColumns v
      · rw [if_pos h3, if_pos h3, hrel col h3]
      · rw [if_neg h3, if_neg h3]

theorem planCols_eq_filterMap (info : FileInfo) (v : ValueInfo)
    (g : String → Option (String × NormCol)) (l : List String)
    (h : ∀ col ∈ l, planColumn info v col = .ok (g col)) :
    planCols info v l = .ok (l.filterMap g) := by
  induction l with
  | nil => rfl
  | cons col rest ih =>
      have hcol := h col (List.mem_cons_self col rest)
      have hrest := ih (fun c hc => h c (List.mem_cons_of_mem col hc))
      unfold planCols
      rw [hcol, hrest, List.filterMap_cons]
      cases g col <;> rfl

theorem plan_eq_filterMap (info : FileInfo) (v : ValueInfo)
    (fAbs fRel : String → ℚ)
    (hdisj : ∀ c ∈ absColumns v, c ∉ relColumns v)
    (habs : ∀ c ∈ absColumns v,
      ((mkUnitStr (info.get_column c).unit).divU
        (mkUnitStr (info.get_column v.column).unit)).toFloat = .ok (fAbs c))
    (hrel : ∀ c ∈ relColumns v,
      (((mkUnitStr (info.get_column c).unit).mulU
          (mkUnitStr (info.get_column v.column).unit)).divU
        (mkUnitStr (info.get_column v.column).unit)).toFloat = .ok (fRel c)) :
    plan info v = .ok ((nonParamCols info).filterMap (planFnPure v fAbs fRel)) := by
  unfold plan
  rw [if_pos hdisj]
  exact planCols_eq_filterMap info v (planFnPure v fAbs fRel) (nonParamCols info)
    (fun col _ => planColumn_eq_planFnPure info v fAbs fRel habs hrel col)

theorem mem_keys_filterMap_plan {v : ValueInfo} {fAbs fRel : String → ℚ}
    {l : List String} {c : String}
    (h : c ∈ (l.filterMap (planFnPure v fAbs fRel)).map Prod.fst) : c ∈ l := by
  rcases List.mem_map.mp h with ⟨pc, hpc, hfst⟩
  rcases List.mem_filterMap.mp hpc with ⟨col, hcol, hplan⟩
  rw [← hfst, planFnPure_fst hplan]
  exact hcol

theorem nodup_keys_filterMap_plan (v : ValueInfo) (fAbs fRel : String → ℚ)
    {l : List String} (hl : l.Nodup) :
    ((l.filterMap (planFnPure v fAbs fRel)).map Prod.fst).Nodup := by
  induction l with
  | nil => simp
  | cons col rest ih =>
      rw [List.nodup_cons] at hl
      rw [List.filterMap_cons]
      cases hpc : planFnPure v fAbs fRel col with
      | none => exact ih hl.2
      | some pc =>
          rw [List.map_cons, List.nodup_cons]
          refine ⟨?_, ih hl.2⟩
          rw [planFnPure_fst hpc]
          intro hc
          exact hl.1 (mem_keys_filterMap_plan hc)

theorem rowGet_cons (kv : String × ℚ) (l : List (String × ℚ)) (c : String) :
    rowGet (kv :: l) c = if kv.1 = c then kv.2 else rowGet l c := by
  unfold rowGet
  rw [List.find?_cons]
  by_cases h : kv.1 = c
  · simp [h]
  · simp [h]

theorem rowGet_normalizeRow {pl : List (String × NormCol)}
    (hpl : (pl.map Prod.fst).Nodup) (vcol : String) (r : Row) {c : String}
    {k : NormCol} (hmem : (c, k) ∈ pl) :
    rowGet (normalizeRow pl vcol r) c = normColApply k vcol c r := by
  induction pl with
  | nil => cases hmem
  | cons pc rest ih =>
      rw [List.map_cons, List.nodup_cons] at hpl
      unfold normalizeRow
      rw [List.map_cons, rowGet_cons]
      rcases List.mem_cons.mp hmem with h | h
      · subst h
        rw [if_pos rfl]
      · have hne : pc.1 ≠ c := by
          intro hc
          apply hpl.1
          rw [hc]
          exact List.mem_map_of_mem Prod.fst h
        rw [if_neg hne]
        exact ih hpl.2 h

theorem mem_absColumns {v : ValueInfo} {su : UncSpec} {c : String}
    (hsu : su ∈ v.unc_p ++ v.unc_m) (hrel : isRelType su.2 = false)
    (hc : c ∈ su.1) : c ∈ absColumns v := by
  unfold absColumns
  apply List.mem_flatMap.mpr
  refine ⟨su, ?_, hc⟩
  apply List.mem_filter.mpr
  exact ⟨hsu, by rw [hrel]; rfl⟩

theorem mem_relColumns {v : ValueInfo} {su : UncSpec} {c : String}
    (hsu : su ∈ v.unc_p ++ v.unc_m) (hrel : isRelType su.2 = true)
    (hc : c ∈ su.1) : c ∈ relColumns v := by
  unfold relColumns
  apply List.mem_flatMap.mpr
  refine ⟨su, ?_, hc⟩
  apply List.mem_filter.mpr
  exact ⟨hsu, hrel⟩

/-- The converted entry that claim C1 ascribes to a column of an
uncertainty-source group. -/
def specEntry (v : ValueInfo) (fAbs fRel : String → ℚ) (r : Row)
    (su : UncSpec) (c : String) : ℚ :=
  if isRelType su.2 then r v.column * r c * fRel c else r c * fAbs c

theorem rowGet_norm_entry (info : FileInfo) (v : ValueInfo)
    (fAbs fRel : String → ℚ) (r : Row)
    (hn : (nonParamCols info).Nodup)
    (hdisj : ∀ c ∈ absColumns v, c ∉ relColumns v)
    {su : UncSpec} {c : String}
    (hsu : su ∈ v.unc_p ++ v.unc_m) (hc : c ∈ su.1)
    (hcnp : c ∈ nonParamCols info) (hcv : c ≠ v.column) :
    rowGet (normalizeRow ((nonParamCols info).filterMap (planFnPure v fAbs fRel))
        v.column r) c = specEntry v fAbs fRel r su c := by
  have hkeys := nodup_keys_filterMap_plan v fAbs fRel hn
  unfold specEntry
  by_cases hrel : isRelType su.2
  · have hcr : c ∈ relColumns v := mem_relColumns hsu hrel hc
    have hcna : c ∉ absColumns v := fun ha => hdisj c ha hcr
    have hplan : planFnPure v fAbs fRel c = some (c, .rel (fRel c)) := by
      unfold planFnPure
      rw [if_neg hcv, if_neg hcna, if_pos hcr]
    have hmem : (c, NormCol.rel (fRel c)) ∈
        (nonParamCols info).filterMap (planFnPure v fAbs fRel) :=
      List.mem_filterMap.mpr ⟨c, hcnp, hplan⟩
    rw [rowGet_normalizeRow hkeys v.column r hmem, if_pos hrel]
    rfl
  · have hca : c ∈ absColumns v :=
      mem_absColumns hsu (Bool.not_eq_true _ ▸ hrel) hc
    have hplan : planFnPure v fAbs fRel c = some (c, .abs (fAbs c)) := by
      unfold planFnPure
      rw [if_neg hcv, if_pos hca]
    have hmem : (c, NormCol.abs (fAbs c)) ∈
        (nonParamCols info).filterMap (planFnPure v fAbs fRel) :=
      List.mem_filterMap.mpr ⟨c, hcnp, hplan⟩
    rw [rowGet_normalizeRow hkeys v.column r hmem, if_neg hrel]
    rfl

theorem rowGet_norm_value (info : FileInfo) (v : ValueInfo)
    (fAbs fRel : String → ℚ) (r : Row)
    (hn : (nonParamCols info).Nodup) (hvcol : v.column ∈ nonParamCols info) :
    rowGet (normalizeRow ((nonParamCols info).filterMap (planFnPure v fAbs fRel))
        v.column r) v.column = r v.column := by
  have hkeys := nodup_keys_filterMap_plan v fAbs fRel hn
  have hplan : planFnPure v fAbs fRel v.column = some (v.column, .value) := by
    unfold planFnPure
    rw [if_pos rfl]
  have hmem : (v.column, NormCol.value) ∈
      (nonParamCols info).filterMap (planFnPure v fAbs fRel) :=
    List.mem_filterMap.mpr ⟨v.column, hvcol, hplan⟩
  rw [rowGet_normalizeRow hkeys v.column r hmem]
  rfl

theorem calcUnc_eq_spec (info : FileInfo) (v : ValueInfo)
    (fAbs fRel : String → ℚ) (r : Row) (sources : List UncSpec) (sign : ℚ)
    (hn : (nonParamCols info).Nodup)
    (hdisj : ∀ c ∈ absColumns v, c ∉ relColumns v)
    (hss : ∀ su ∈ sources, su ∈ v.unc_p ++ v.unc_m)
    (hsrc : ∀ su ∈ sources, ∀ c ∈ su.1, c ∈ nonParamCols info ∧ c ≠ v.column) :
    calcUnc (normalizeRow ((nonParamCols info).filterMap (planFnPure v fAbs fRel))
        v.column r) sources sign =
      specCombinedUnc v.column fAbs fRel r sources sign := by
  unfold calcUnc specCombinedUnc
  dsimp only
  congr 1
  congr 1
  congr 1
  rw [List.map_map]
  apply List.map_congr_left
  intro su hsu
  have hentry : ∀ c ∈ su.1,
      rowGet (normalizeRow ((nonParamCols info).filterMap (planFnPure v fAbs fRel))
        v.column r) c = specEntry v fAbs fRel r su c := by
    intro c hc
    exact rowGet_norm_entry info v fAbs fRel r hn hdisj (hss su hsu) hc
      (hsrc su hsu c hc).1 (hsrc su hsu c hc).2
  dsimp only [Function.comp]
  have hcand :
      (if isSignedType su.2 then
        (su.1.filter (fun c =>
          0 < rowGet (normalizeRow ((nonParamCols info).filterMap
            (planFnPure v fAbs fRel)) v.column r) c * sign)).map (fun c =>
          |rowGet (normalizeRow ((nonParamCols info).filterMap
            (planFnPure v fAbs fRel)) v.column r) c|)
      else su.1.map (fun c =>
          |rowGet (normalizeRow ((nonParamCols info).filterMap
            (planFnPure v fAbs fRel)) v.column r) c|)) =
      ((if isSignedType su.2 then
        su.1.filter (fun c => 0 < specEntry v fAbs fRel r su c * sign)
      else su.1).map (fun c => |specEntry v fAbs fRel r su c|)) := by
    by_cases hsgn : isSignedType su.2
    · rw [if_pos hsgn, if_pos hsgn]
      have hfilter : su.1.filter (fun c =>
          0 < rowGet (normalizeRow ((nonParamCols info).filterMap
            (planFnPure v fAbs fRel)) v.column r) c * sign) =
        su.1.filter (fun c => 0 < specEntry v fAbs fRel r su c * sign) := by
        apply List.filter_congr
        intro c hc
        rw [hentry c hc]
      rw [hfilter]
      apply List.map_congr_left
      intro c hc
      rw [hentry c (List.mem_of_mem_filter hc)]
    · rw [if_neg hsgn, if_neg hsgn]
      apply List.map_congr_left
      intro c hc
      rw [hentry c hc]
  rw [hcand]
  rfl

theorem buildValueTable_eq_of_plan {info : FileInfo} {v : ValueInfo}
    {raw : List Row} {pl : List (String × NormCol)}
    (h : plan info v = .ok pl) :
    buildValueTable info v raw =
      .ok (raw.map (fun r =>
        (keyOf info r, rowGet (normalizeRow pl v.column r) v.column,
          calcUnc (normalizeRow pl v.column r) v.unc_p 1,
          calcUnc (normalizeRow pl v.column r) v.unc_m (-1)))) := by
  unfold buildValueTable
  rw [h]
  show Except.ok _ = _
  rw [List.map_map]
  rfl

/-- Claim C1: for every declared value and every raw-data row, the stored
`unc+` entry is computed by the three-level rule (sign filtering for signed
types, maximum absolute value within each source group after unit conversion
and, for relative types, multiplication by the central value, quadrature sum
across groups), so it is always non-negative, and the stored `unc-` entry is
computed by the same rule with sign `-1`.  The hypotheses record that the
annotation is validated (unique non-parameter columns, known source columns,
no source group naming the value column itself, disjoint absolute / relative
partition) and that the unit conversions of the source columns succeed with
the factors `fAbs` / `fRel`. -/
theorem C1_three_level_rule (info : FileInfo) (v : ValueInfo) (raw : List Row)
    (fAbs fRel : String → ℚ)
    (hn : (nonParamCols info).Nodup)
    (hvcol : v.column ∈ nonParamCols info)
    (hdisj : ∀ c ∈ absColumns v, c ∉ relColumns v)
    (hsrc : ∀ su ∈ v.unc_p ++ v.unc_m, ∀ c ∈ su.1,
      c ∈ nonParamCols info ∧ c ≠ v.column)
    (habs : ∀ c ∈ absColumns v,
      ((mkUnitStr (info.get_column c).unit).divU
        (mkUnitStr (info.get_column v.column).unit)).toFloat = .ok (fAbs c))
    (hrel : ∀ c ∈ relColumns v,
      (((mkUnitStr (info.get_column c).unit).mulU
          (mkUnitStr (info.get_column v.column).unit)).divU
        (mkUnitStr (info.get_column v.column).unit)).toFloat = .ok (fRel c)) :
    buildValueTable info v raw = .ok (raw.map (fun r =>
      (keyOf info r, r v.column,
        specCombinedUnc v.column fAbs fRel r v.unc_p 1,
        specCombinedUnc v.column fAbs fRel r v.unc_m (-1)))) ∧
    ∀ r : Row, 0 ≤ specCombinedUnc v.column fAbs fRel r v.unc_p 1 := by
  constructor
  · rw [buildValueTable_eq_of_plan (plan_eq_filterMap info v fAbs fRel hdisj habs hrel)]
    congr 1
    apply List.map_congr_left
    intro r _
    have hp : ∀ su ∈ v.unc_p, su ∈ v.unc_p ++ v.unc_m := fun su h =>
      List.mem_append.mpr (Or.inl h)
    have hm : ∀ su ∈ v.unc_m, su ∈ v.unc_p ++ v.unc_m := fun su h =>
      List.mem_append.mpr (Or.inr h)
    rw [rowGet_norm_value info v fAbs fRel r hn hvcol,
      calcUnc_eq_spec info v fAbs fRel r v.unc_p 1 hn hdisj hp
        (fun su h => hsrc su (hp su h)),
      calcUnc_eq_spec info v fAbs fRel r v.unc_m (-1) hn hdisj hm
        (fun su h => hsrc su (hm su h))]
  · intro r
    exact Real.sqrt_nonneg _

/-- A concrete annotated file for the claim C1 witness: parameter `m`
(granularity 1), value `xsec` in pb, an absolute uncertainty source `dp` in
fb, and a relative uncertainty source `dm` in percent. -/
def vW : ValueInfo := ⟨"xsec", [(["dp"], "absolute")], [(["dm"], "relative")]⟩

def infoW : FileInfo :=
  ⟨[⟨0, "m", ""⟩, ⟨1, "xsec", "pb"⟩, ⟨2, "dp", "fb"⟩, ⟨3, "dm", "%"⟩],
    [⟨"m", some 1⟩], [vW]⟩

def rawW : List Row :=
  [fun c => if c = "m" then 100 else if c = "xsec" then 10
    else if c = "dp" then 2 else if c = "dm" then 1 / 10 else 0]

def fAbsW : String → ℚ := fun _ => 1 / 1000

def fRelW : String → ℚ := fun _ => 1 / 100

/-- Witness for C1: the hypotheses hold for the concrete file `infoW` with
conversion factors 1/1000 (fb into pb) and 1/100 (percent), and the builder
output is given by the three-level rule. -/
theorem C1_three_level_rule_witness :
    ((nonParamCols infoW).Nodup ∧
      vW.column ∈ nonParamCols infoW ∧
      (∀ c ∈ absColumns vW, c ∉ relColumns vW) ∧
      (∀ su ∈ vW.unc_p ++ vW.unc_m, ∀ c ∈ su.1,
        c ∈ nonParamCols infoW ∧ c ≠ vW.column) ∧
      (∀ c ∈ absColumns vW,
        ((mkUnitStr (infoW.get_column c).unit).divU
          (mkUnitStr (infoW.get_column vW.column).unit)).toFloat = .ok (fAbsW c)) ∧
      (∀ c ∈ relColumns vW,
        (((mkUnitStr (infoW.get_column c).unit).mulU
            (mkUnitStr (infoW.get_column vW.column).unit)).divU
          (mkUnitStr (infoW.get_column vW.column).unit)).toFloat = .ok (fRelW c))) ∧
    (buildValueTable infoW vW rawW = .ok (rawW.map (fun r =>
      (keyOf infoW r, r vW.column,
        specCombinedUnc vW.column fAbsW fRelW r vW.unc_p 1,
        specCombinedUnc vW.column fAbsW fRelW r vW.unc_m (-1)))) ∧
      ∀ r : Row, 0 ≤ specCombinedUnc vW.column fAbsW fRelW r vW.unc_p 1) := by
  have hn : (nonParamCols infoW).Nodup := by decide
  have hvcol : vW.column ∈ nonParamCols infoW := by decide
  have hdisj : ∀ c ∈ absColumns vW, c ∉ relColumns vW := by decide
  have hsrc : ∀ su ∈ vW.unc_p ++ vW.unc_m, ∀ c ∈ su.1,
      c ∈ nonParamCols infoW ∧ c ≠ vW.column := by decide
  have habs : ∀ c ∈ absColumns vW,
      ((mkUnitStr (infoW.get_column c).unit).divU
        (mkUnitStr (infoW.get_column vW.column).unit)).toFloat = .ok (fAbsW c) := by
    intro c hc
    rw [show absColumns vW = ["dp"] from by decide] at hc
    simp only [List.mem_singleton] at hc
    subst hc
    show Except.ok ((1 : ℚ) * (1 * 1000)⁻¹) = _
    rw [show fAbsW "dp" = 1 / 1000 from rfl]
    norm_num
  have hrel : ∀ c ∈ relColumns vW,
      (((mkUnitStr (infoW.get_column c).unit).mulU
          (mkUnitStr (infoW.get_column vW.column).unit)).divU
        (mkUnitStr (infoW.get_column vW.column).unit)).toFloat = .ok (fRelW c) := by
    intro c hc
    rw [show relColumns vW = ["dm"] from by decide] at hc
    simp only [List.mem_singleton] at hc
    subst hc
    show Except.ok ((1 : ℚ) * (1 / 100) * (1 * 1000) * (1 * 1000)⁻¹) = _
    rw [show fRelW "dm" = 1 / 100 from rfl]
    norm_num
  exact ⟨⟨hn, hvcol, hdisj, hsrc, habs, hrel⟩,
    C1_three_level_rule infoW vW rawW fAbsW fRelW hn hvcol hdisj hsrc habs hrel⟩

/-! ## Claim C10: the built table reads only the referenced columns -/

/-- The raw columns that may influence the built table of a value: the
parameter columns, the value column, and the columns of its uncertainty
source groups. -/
def relevantCols (info : FileInfo) (v : ValueInfo) : List String :=
  info.parameters.map ParameterInfo.column ++
    v.column :: (v.unc_p ++ v.unc_m).flatMap Prod.fst

theorem absColumns_subset_relevant {info : FileInfo} {v : ValueInfo} {c : String}
    (h : c ∈ absColumns v) : c ∈ relevantCols info v := by
  unfold absColumns at h
  rcases List.mem_flatMap.mp h with ⟨su, hsu, hc⟩
  unfold relevantCols
  apply List.mem_append.mpr
  right
  apply List.mem_cons.mpr
  right
  exact List.mem_flatMap.mpr ⟨su, List.mem_of_mem_filter hsu, hc⟩

theorem relColumns_subset_relevant {info : FileInfo} {v : ValueInfo} {c : String}
    (h : c ∈ relColumns v) : c ∈ relevantCols info v := by
  unfold relColumns at h
  rcases List.mem_flatMap.mp h with ⟨su, hsu, hc⟩
  unfold relevantCols
  apply List.mem_append.mpr
  right
  apply List.mem_cons.mpr
  right
  exact List.mem_flatMap.mpr ⟨su, List.mem_of_mem_filter hsu, hc⟩

theorem vcol_mem_relevant (info : FileInfo) (v : ValueInfo) :
    v.column ∈ relevantCols info v := by
  unfold relevantCols
  apply List.mem_append.mpr
  right
  exact List.mem_cons_self _ _

theorem planColumn_some_cases {info : FileInfo} {v : ValueInfo} {col : String}
    {pc : String × NormCol} (h : planColumn info v col = .ok (some pc)) :
    pc.1 = col ∧ (col = v.column ∨ col ∈ absColumns v ∨ col ∈ relColumns v) := by
  unfold planColumn at h
  by_cases h1 : col = v.column
  · rw [if_pos h1] at h
    cases h
    exact ⟨rfl, Or.inl h1⟩
  · rw [if_neg h1] at h
    by_cases h2 : col ∈ absColumns v
    · rw [if_pos h2] at h
      refine ⟨?_, Or.inr (Or.inl h2)⟩
      cases hf : ((mkUnitStr (info.get_column col).unit).divU
          (mkUnitStr (info.get_column v.column).unit)).toFloat with
      | ok f =>
          rw [hf] at h
          cases h
          rfl
      | error e =>
          rw [hf] at h
          cases h
    · rw [if_neg h2] at h
      by_cases h3 : col ∈ relColumns v
      · rw [if_pos h3] at h
        refine ⟨?_, Or.inr (Or.inr h3)⟩
        cases hf : (((mkUnitStr (info.get_column col).unit).mulU
            (mkUnitStr (info.get_column v.column).unit)).divU
            (mkUnitStr (info.get_column v.column).unit)).toFloat with
        | ok f =>
            rw [hf] at h
            cases h
            rfl
        | error e =>
            rw [hf] at h
            cases h
      · rw [if_neg h3] at h
        cases h

theorem planCols_mem_cases {info : FileInfo} {v : ValueInfo} {l : List String}
    {pl : List (String × NormCol)} (h : planCols info v l = .ok pl) :
    ∀ pc ∈ pl, pc.1 = v.column ∨ pc.1 ∈ absColumns v ∨ pc.1 ∈ relColumns v := by
  induction l generalizing pl with
  | nil =>
      unfold planCols at h
      cases h
      intro pc hpc
      cases hpc
  | cons col rest ih =>
      unfold planCols at h
      cases hcol : planColumn info v col with
      | error e =>
          rw [hcol] at h
          cases h
      | ok o =>
          rw [hcol] at h
          cases hrest : planCols info v rest with
          | error e =>
              rw [hrest] at h
              cases o <;> cases h
          | ok acc =>
              rw [hrest] at h
              cases o with
              | none =>
                  cases h
                  exact ih hrest
              | some pc0 =>
                  cases h
                  intro pc hpc
                  rcases List.mem_cons.mp hpc with hh | hh
                  · subst hh
                    rcases planColumn_some_cases hcol with ⟨hfst, hcases⟩
                    rw [hfst]
                    exact hcases
                  · exact ih hrest pc hh

theorem plan_ok_planCols {info : FileInfo} {v : ValueInfo}
    {pl : List (String × NormCol)} (h : plan info v = .ok pl) :
    planCols info v (nonParamCols info) = .ok pl := by
  unfold plan at h
  by_cases hd : ∀ c ∈ absColumns v, c ∉ relColumns v
  · rwa [if_pos hd] at h
  · rw [if_neg hd] at h
    cases h

/-- Claim C10: the built table of a value depends only on the parameter
columns, the value column, and the columns referenced by its uncertainty
source groups; two raw tables that agree row by row on those columns produce
identical built tables. -/
theorem C10_only_referenced_columns (info : FileInfo) (v : ValueInfo)
    (raw₁ raw₂ : List Row)
    (hagree : List.Forall₂
      (fun r₁ r₂ => ∀ c ∈ relevantCols info v, r₁ c = r₂ c) raw₁ raw₂) :
    buildValueTable info v raw₁ = buildValueTable info v raw₂ := by
  unfold buildValueTable
  cases hpl : plan info v with
  | error e => rfl
  | ok pl =>
      have hrowEq : ∀ r₁ r₂ : Row, (∀ c ∈ relevantCols info v, r₁ c = r₂ c) →
          (keyOf info r₁, normalizeRow pl v.column r₁) =
            (keyOf info r₂, normalizeRow pl v.column r₂) := by
        intro r₁ r₂ hr
        have hkey : keyOf info r₁ = keyOf info r₂ := by
          unfold keyOf
          apply List.map_congr_left
          intro p hp
          have hpc : p.column ∈ relevantCols info v := by
            unfold relevantCols
            exact List.mem_append.mpr (Or.inl (List.mem_map_of_mem _ hp))
          rw [hr p.column hpc]
        have hnorm : normalizeRow pl v.column r₁ = normalizeRow pl v.column r₂ := by
          unfold normalizeRow
          apply List.map_congr_left
          intro pc hpc
          have hcrel : pc.1 ∈ relevantCols info v := by
            rcases planCols_mem_cases (plan_ok_planCols hpl) pc hpc with h | h | h
            · rw [h]
              exact vcol_mem_relevant info v
            · exact absColumns_subset_relevant h
            · exact relColumns_subset_relevant h
          have hvc := hr v.column (vcol_mem_relevant info v)
          have hcc := hr pc.1 hcrel
          cases pc.2 <;> simp [normColApply, hvc, hcc]
        rw [hkey, hnorm]
      have hrows : raw₁.map (fun r => (keyOf info r, normalizeRow pl v.column r)) =
          raw₂.map (fun r => (keyOf info r, normalizeRow pl v.column r)) := by
        induction hagree with
        | nil => rfl
        | cons hab _ ih =>
            rw [List.map_cons, List.map_cons, ih, hrowEq _ _ hab]
      show Except.ok _ = Except.ok _
      rw [hrows]

/-- Witness for C10: two raw tables over `infoW` that differ only in an
unreferenced column `note` build the same table for `xsec`. -/
theorem C10_only_referenced_columns_witness :
    List.Forall₂
      (fun r₁ r₂ => ∀ c ∈ relevantCols infoW vW, r₁ c = r₂ c)
      [fun c => if c = "note" then (5 : ℚ) else if c = "m" then 100 else 10]
      [fun c => if c = "note" then (7 : ℚ) else if c = "m" then 100 else 10] ∧
    buildValueTable infoW vW
        [fun c => if c = "note" then (5 : ℚ) else if c = "m" then 100 else 10] =
      buildValueTable infoW vW
        [fun c => if c = "note" then (7 : ℚ) else if c = "m" then 100 else 10] := by
  have hagree : List.Forall₂
      (fun r₁ r₂ => ∀ c ∈ relevantCols infoW vW, r₁ c = r₂ c)
      [fun c => if c = "note" then (5 : ℚ) else if c = "m" then 100 else 10]
      [fun c => if c = "note" then (7 : ℚ) else if c = "m" then 100 else 10] := by
    refine List.Forall₂.cons ?_ List.Forall₂.nil
    intro c hc
    rw [show relevantCols infoW vW = ["m", "xsec", "dp", "dm"] from by decide] at hc
    fin_cases hc <;> rfl
  exact ⟨hagree, C10_only_referenced_columns infoW vW _ _ hagree⟩

/-! ## Claim C3: the sign of the stored `unc-` entry

`BaseFile._parse_data` stores `calc(row, unc_m, -1)` into the `"unc-"` column
without negating it, so the stored entry is a quadrature sum and hence
non-negative, although the class docstring of `BaseFile` states that the
content of `"unc-"` is non-positive and the sibling implementation
`CrossSectionTable._parse_data` (`cross_section_table.py`) negates the
combined result.  The theorem below evaluates the builder on a file with a
single absolute uncertainty source of raw size 3 and shows that both stored
uncertainty entries are strictly positive. -/

def vD3 : ValueInfo := ⟨"xsec", [(["unc"], "absolute")], [(["unc"], "absolute")]⟩

def infoD3 : FileInfo :=
  ⟨[⟨0, "m", ""⟩, ⟨1, "xsec", ""⟩, ⟨2, "unc", ""⟩], [⟨"m", none⟩], [vD3]⟩

def rawD3 : List Row :=
  [fun c => if c = "m" then 1 else if c = "xsec" then 10 else 3]

/-- Claim C3 (code bug): on the file `infoD3` the built table stores a
strictly positive entry in the `"unc-"` column, contradicting the invariant
`unc_minus ≤ 0`. -/
theorem C3_unc_minus_stored_positive :
    ∃ ts, buildFile infoD3 rawD3 = .ok ts ∧ ts ≠ [] ∧
      ∀ nt ∈ ts, nt.2 ≠ [] ∧ ∀ e ∈ nt.2, 0 < e.2.2.1 ∧ 0 < e.2.2.2 := by
  have hplan : plan infoD3 vD3 =
      .ok [("xsec", NormCol.value), ("unc", NormCol.abs ((1 * 1) * (1 * 1)⁻¹))] := rfl
  have hbuild := @buildValueTable_eq_of_plan infoD3 vD3 rawD3 _ hplan
  have hpos : ∀ sgn : ℚ,
      0 < calcUnc (normalizeRow [("xsec", NormCol.value),
          ("unc", NormCol.abs ((1 * 1) * (1 * 1)⁻¹))] vD3.column
          (fun c => if c = "m" then 1 else if c = "xsec" then 10 else 3))
        [(["unc"], "absolute")] sgn := by
    intro sgn
    unfold calcUnc
    rw [Real.sqrt_pos]
    have hsigned : isSignedType "absolute" = false := by decide
    simp only [List.map_cons, List.map_nil, hsigned, Bool.false_eq_true,
      if_false, List.max?]
    have hget : rowGet (normalizeRow [("xsec", NormCol.value),
        ("unc", NormCol.abs ((1 * 1) * (1 * 1)⁻¹))] vD3.column
        (fun c => if c = "m" then 1 else if c = "xsec" then 10 else 3)) "unc" =
        3 * ((1 * 1) * (1 * 1)⁻¹) := rfl
    rw [hget]
    push_cast
    norm_num
  refine ⟨[("xsec",
      rawD3.map (fun r => (keyOf infoD3 r,
        rowGet (normalizeRow [("xsec", NormCol.value),
          ("unc", NormCol.abs ((1 * 1) * (1 * 1)⁻¹))] vD3.column r) vD3.column,
        calcUnc (normalizeRow [("xsec", NormCol.value),
          ("unc", NormCol.abs ((1 * 1) * (1 * 1)⁻¹))] vD3.column r) vD3.unc_p 1,
        calcUnc (normalizeRow [("xsec", NormCol.value),
          ("unc", NormCol.abs ((1 * 1) * (1 * 1)⁻¹))] vD3.column r) vD3.unc_m (-1))))],
    ?_, ?_, ?_⟩
  · unfold buildFile parseData
    rw [show infoD3.values = [vD3] from rfl, List.mapM_cons, List.mapM_nil, hbuild]
    rfl
  · intro h
    cases h
  · intro nt hnt
    rcases List.mem_cons.mp hnt with h | h
    · subst h
      constructor
      · intro hc
        cases hc
      · intro e he
        rcases List.mem_cons.mp he with h | h
        · subst h
          exact ⟨hpos 1, hpos (-1)⟩
        · cases h
    · cases h


/-! ## Claim C7: duplicate quantized keys abort the build -/

theorem keysContains_iff (l : List (List ℚ)) (k : List ℚ) :
    l.contains k = true ↔ k ∈ l := by
  simp

theorem firstDupAux_none {l seen : List (List ℚ)}
    (h : firstDupAux seen l = none) : l.Nodup ∧ ∀ k ∈ l, k ∉ seen := by
  induction l generalizing seen with
  | nil => exact ⟨List.nodup_nil, by intro k hk; cases hk⟩
  | cons a rest ih =>
      unfold firstDupAux at h
      by_cases hc : seen.contains a
      · rw [if_pos hc] at h
        cases h
      · rw [if_neg hc] at h
        rcases ih h with ⟨hnd, hnm⟩
        refine ⟨List.nodup_cons.mpr ⟨?_, hnd⟩, ?_⟩
        · intro hmem
          exact hnm a hmem (List.mem_cons_self a seen)
        · intro k hk hks
          rcases List.mem_cons.mp hk with hh | hh
          · subst hh
            exact hc ((keysContains_iff seen k).mpr hks)
          · exact hnm k hh (List.mem_cons_of_mem a hks)

theorem firstDupAux_some {l seen : List (List ℚ)} {k : List ℚ}
    (h : firstDupAux seen l = some k) :
    k ∈ l ∧ 2 ≤ seen.count k + l.count k := by
  induction l generalizing seen with
  | nil => cases h
  | cons a rest ih =>
      unfold firstDupAux at h
      by_cases hc : seen.contains a
      · rw [if_pos hc] at h
        cases h
        refine ⟨List.mem_cons_self _ _, ?_⟩
        have h1 : 0 < seen.count k := List.count_pos_iff.mpr
          ((keysContains_iff seen k).mp hc)
        have h2 : 0 < (k :: rest).count k := List.count_pos_iff.mpr
          (List.mem_cons_self _ _)
        omega
      · rw [if_neg hc] at h
        rcases ih h with ⟨hmem, hcount⟩
        refine ⟨List.mem_cons_of_mem a hmem, ?_⟩
        have e1 : (a :: seen).count k + rest.count k =
            seen.count k + (a :: rest).count k := by
          rw [List.count_cons, List.count_cons]
          omega
        omega

theorem exists_firstDupAux_of_not_nodup {l : List (List ℚ)}
    (h : ¬ l.Nodup) : ∃ k, firstDupAux [] l = some k := by
  cases hd : firstDupAux [] l with
  | none => exact absurd (firstDupAux_none hd).1 h
  | some k => exact ⟨k, rfl⟩

theorem buildValueTable_keys {info : FileInfo} {v : ValueInfo} {raw : List Row}
    {t : List BuiltRow} (h : buildValueTable info v raw = .ok t) :
    t.map Prod.fst = raw.map (keyOf info) ∧ t.length = raw.length := by
  cases hpl : plan info v with
  | error e =>
      unfold buildValueTable at h
      rw [hpl] at h
      cases h
  | ok pl =>
      rw [buildValueTable_eq_of_plan hpl] at h
      cases h
      constructor
      · rw [List.map_map]
        rfl
      · rw [List.length_map]

theorem mapM_build_ok (info : FileInfo) (raw : List Row) (l : List ValueInfo)
    (h : ∀ v ∈ l, ∃ pl, plan info v = .ok pl) :
    ∃ ts, (l.mapM (fun v =>
        match buildValueTable info v raw with
        | .ok t => Except.ok (v.column, t)
        | .error e => .error (.unitError e)) :
          Except BuildErr (List (String × List BuiltRow))) = .ok ts ∧
      List.Forall₂ (fun nt v => nt.1 = v.column ∧
        buildValueTable info v raw = .ok nt.2) ts l := by
  induction l with
  | nil => exact ⟨[], by rw [List.mapM_nil]; rfl, List.Forall₂.nil⟩
  | cons v rest ih =>
      rcases h v (List.mem_cons_self v rest) with ⟨pl, hpl⟩
      rcases ih (fun w hw => h w (List.mem_cons_of_mem v hw)) with ⟨ts, hts, hf⟩
      refine ⟨(v.column, (raw.map (fun r =>
        (keyOf info r, rowGet (normalizeRow pl v.column r) v.column,
          calcUnc (normalizeRow pl v.column r) v.unc_p 1,
          calcUnc (normalizeRow pl v.column r) v.unc_m (-1))))) :: ts, ?_, ?_⟩
      · rw [List.mapM_cons, buildValueTable_eq_of_plan hpl, hts]
        rfl
      · exact List.Forall₂.cons ⟨rfl, buildValueTable_eq_of_plan hpl⟩ hf

theorem mapM_ok_forall {info : FileInfo} {raw : List Row} {l : List ValueInfo}
    {ts : List (String × List BuiltRow)}
    (h : (l.mapM (fun v =>
        match buildValueTable info v raw with
        | .ok t => Except.ok (v.column, t)
        | .error e => .error (.unitError e)) :
          Except BuildErr (List (String × List BuiltRow))) = .ok ts) :
    List.Forall₂ (fun nt v => nt.1 = v.column ∧
      buildValueTable info v raw = .ok nt.2) ts l := by
  induction l generalizing ts with
  | nil =>
      rw [List.mapM_nil] at h
      cases h
      exact List.Forall₂.nil
  | cons v rest ih =>
      rw [List.mapM_cons] at h
      cases hv : buildValueTable info v raw with
      | error e =>
          rw [hv] at h
          cases h
      | ok t =>
          rw [hv] at h
          cases hrest : (rest.mapM (fun v =>
              match buildValueTable info v raw with
              | .ok t => Except.ok (v.column, t)
              | .error e => .error (.unitError e)) :
                Except BuildErr (List (String × List BuiltRow))) with
          | error e =>
              rw [hrest] at h
              cases h
          | ok ts' =>
              rw [hrest] at h
              cases h
              exact List.Forall₂.cons ⟨rfl, hv⟩ (ih hrest)

theorem forall₂_mem_left {α β : Type} {R : α → β → Prop} {l1 : List α}
    {l2 : List β} (h : List.Forall₂ R l1 l2) {a : α} (ha : a ∈ l1) :
    ∃ b ∈ l2, R a b := by
  induction h with
  | nil => cases ha
  | cons hab _ ih =>
      rcases List.mem_cons.mp ha with hh | hh
      · subst hh
        exact ⟨_, List.mem_cons_self _ _, hab⟩
      · rcases ih hh with ⟨b, hb, hr⟩
        exact ⟨b, List.mem_cons_of_mem _ hb, hr⟩

theorem buildFile_of_parse {info : FileInfo} {raw : List Row}
    {ts : List (String × List BuiltRow)} (h : parseData info raw = .ok ts) :
    buildFile info raw = match validateFile ts with
      | .ok _ => .ok ts
      | .error e => .error e := by
  unfold buildFile
  rw [h]
  show Except.bind (validateFile ts) (fun _ => pure ts) = _
  cases validateFile ts <;> rfl

/-- Claim C7: if, after granularity quantization, two raw rows map to the
same parameter tuple, construction fails at validation time with an error
naming an affected table and a colliding key (one that indeed occurs at least
twice among the quantized keys); and whenever construction succeeds, every
table has pairwise distinct keys and one entry per raw row, so duplicate grid
keys are never silently overwritten. -/
theorem C7_duplicate_keys_abort :
    (∀ (info : FileInfo) (raw : List Row),
      (∀ v ∈ info.values, ∃ pl, plan info v = .ok pl) →
      info.values ≠ [] →
      ¬ (raw.map (keyOf info)).Nodup →
      ∃ n k, buildFile info raw = .error (.duplicatedEntries n k) ∧
        n ∈ info.values.map ValueInfo.column ∧
        2 ≤ (raw.map (keyOf info)).count k) ∧
    (∀ (info : FileInfo) (raw : List Row) (ts : List (String × List BuiltRow)),
      buildFile info raw = .ok ts →
      ∀ nt ∈ ts, (nt.2.map Prod.fst).Nodup ∧ nt.2.length = raw.length) := by
  constructor
  · intro info raw hplans hne hdup
    rcases mapM_build_ok info raw info.values hplans with ⟨ts, hts, hf⟩
    have hparse : parseData info raw = .ok ts := hts
    cases hvals : info.values with
    | nil => exact absurd hvals hne
    | cons v vs' =>
        rw [hvals] at hf
        cases hf with
        | @cons nt v2 ts2 vs2 hnv hrest =>
            have hkeys : nt.2.map Prod.fst = raw.map (keyOf info) :=
              (buildValueTable_keys hnv.2).1
            have hdupk : ¬ (nt.2.map Prod.fst).Nodup := by
              rw [hkeys]
              exact hdup
            rcases exists_firstDupAux_of_not_nodup hdupk with ⟨k, hk⟩
            refine ⟨nt.1, k, ?_, ?_, ?_⟩
            · rw [buildFile_of_parse hparse]
              unfold validateFile
              rw [List.findSome?_cons, hk]
              rfl
            · rw [hnv.1]
              exact List.mem_map_of_mem ValueInfo.column
                (List.mem_cons_self v vs')
            · have hcnt := (firstDupAux_some hk).2
              rw [hkeys] at hcnt
              simpa using hcnt
  · intro info raw ts hok nt hnt
    cases hparse : parseData info raw with
    | error e =>
        unfold buildFile at hok
        rw [hparse] at hok
        cases hok
    | ok ts' =>
        rw [buildFile_of_parse hparse] at hok
        cases hval : validateFile ts' with
        | error e =>
            rw [hval] at hok
            cases hok
        | ok u =>
            rw [hval] at hok
            cases hok
            have hnone : (firstDupAux [] (nt.2.map Prod.fst)) = none := by
              unfold validateFile at hval
              cases hfs : ts.findSome? (fun nt =>
                  (firstDupAux [] (nt.2.map Prod.fst)).map (fun k => (nt.1, k))) with
              | some nk =>
                  rw [hfs] at hval
                  cases hval
              | none =>
                  have hx := List.findSome?_eq_none_iff.mp hfs nt hnt
                  exact Option.map_eq_none'.mp hx
            refine ⟨(firstDupAux_none hnone).1, ?_⟩
            have hforall := mapM_ok_forall hparse
            rcases forall₂_mem_left hforall hnt with ⟨v, _, ⟨_, hbv⟩⟩
            exact (buildValueTable_keys hbv).2

/-- A file with one parameter and one value and two raw rows that collide on
the parameter grid, for the claim C7 witness. -/
def vD7 : ValueInfo := ⟨"xsec", [], []⟩

def infoD7 : FileInfo := ⟨[⟨0, "m", ""⟩, ⟨1, "xsec", ""⟩], [⟨"m", none⟩], [vD7]⟩

def rawD7 : List Row :=
  [fun c => if c = "m" then 1 else 10, fun c => if c = "m" then 1 else 20]

/-- Witness for C7: the two rows of `rawD7` have the same key `[1]`, and the
build fails with the duplicate-entries error naming the table `xsec`. -/
theorem C7_duplicate_keys_abort_witness :
    ((∀ v ∈ infoD7.values, ∃ pl, plan infoD7 v = .ok pl) ∧ infoD7.values ≠ [] ∧
      ¬ (rawD7.map (keyOf infoD7)).Nodup) ∧
    (∃ n k, buildFile infoD7 rawD7 = .error (.duplicatedEntries n k) ∧
      n ∈ infoD7.values.map ValueInfo.column ∧
      2 ≤ (rawD7.map (keyOf infoD7)).count k) := by
  have hplans : ∀ v ∈ infoD7.values, ∃ pl, plan infoD7 v = .ok pl := by
    intro v hv
    rw [show infoD7.values = [vD7] from rfl] at hv
    rcases List.mem_singleton.mp hv with rfl
    exact ⟨[("xsec", NormCol.value)], rfl⟩
  have hne : infoD7.values ≠ [] := by
    intro h
    cases h
  have hdup : ¬ (rawD7.map (keyOf infoD7)).Nodup := by
    have hk : rawD7.map (keyOf infoD7) = [[(1 : ℚ)], [(1 : ℚ)]] := by
      show [keyOf infoD7 _, keyOf infoD7 _] = _
      unfold keyOf
      norm_num [infoD7]
    rw [hk]
    simp
  exact ⟨⟨hplans, hne, hdup⟩,
    C7_duplicate_keys_abort.1 infoD7 rawD7 hplans hne hdup⟩

/-! ## Claim C6: the significant-digit formatting rule -/

/-- With `relative=False`, `value_format` agrees everywhere with the digit
rule stated with truncation toward zero. -/
theorem value_format_eq_truncSpec (value unc_p unc_m : ℚ) (unit : Option String) :
    value_format value unc_p unc_m unit false =
      value_format_truncSpec value unc_p unc_m unit := by
  unfold value_format value_format_truncSpec
  dsimp only
  rw [if_neg Bool.false_ne_true]
  by_cases h0 : min |unc_p| |unc_m| = 0
  · rw [if_pos h0, if_pos h0]
  · rw [if_neg h0, if_neg h0]
    by_cases hsci : 3 < |pyTruncLog10 value|
    · rw [if_pos hsci, if_pos hsci]
      simp only [String.append_assoc]
    · rw [if_neg hsci, if_neg hsci]

theorem pyTruncLog10_pbcase : pyTruncLog10 ((4508 : ℚ) / 1000000) = -2 := by
  unfold pyTruncLog10
  rw [if_neg (by norm_num),
    show ((4508 : ℚ) / 1000000)⁻¹ = (1000000 : ℚ) / 4508 from by norm_num,
    @int_log10_eq ((1000000 : ℚ) / 4508) 2 (by norm_num) (by norm_num)
      (by norm_num)]

theorem truncShift_pbcase : truncShift ((95 : ℚ) / 1000000) = 4 := by
  unfold truncShift
  dsimp only
  rw [if_pos (by norm_num),
    @int_log10_eq (((10 : ℚ) * ((95 : ℚ) / 1000000) ^ 200)⁻¹) 803
      (by norm_num) (by norm_num) (by norm_num)]
  decide

theorem formatFixed_value_pbcase : formatFixed ((4508 : ℚ) / 1000000) 6 = "0.004508" := by
  unfold formatFixed
  rw [show (4508 : ℚ) / 1000000 * 10 ^ (6 : ℕ) = ((4508 : ℤ) : ℚ) from by norm_num,
    pyRound_intCast]
  decide

theorem formatFixed_uncp_pbcase : formatFixed ((99 : ℚ) / 1000000) 6 = "0.000099" := by
  unfold formatFixed
  rw [show (99 : ℚ) / 1000000 * 10 ^ (6 : ℕ) = ((99 : ℤ) : ℚ) from by norm_num,
    pyRound_intCast]
  decide

theorem formatFixed_uncm_pbcase : formatFixed ((95 : ℚ) / 1000000) 6 = "0.000095" := by
  unfold formatFixed
  rw [show (95 : ℚ) / 1000000 * 10 ^ (6 : ℕ) = ((95 : ℤ) : ℚ) from by norm_num,
    pyRound_intCast]
  decide

theorem value_format_pb_instance :
    value_format ((4508 : ℚ) / 1000000) ((99 : ℚ) / 1000000)
        (-((95 : ℚ) / 1000000)) (some "pb") false =
      "(0.004508 +0.000099 -0.000095) pb" := by
  have hδ : min |(99 : ℚ) / 1000000| |-((95 : ℚ) / 1000000)| =
      (95 : ℚ) / 1000000 := by
    rw [abs_of_nonneg (by norm_num), abs_of_nonpos (by norm_num)]
    norm_num
  have habsm : |-((95 : ℚ) / 1000000)| = (95 : ℚ) / 1000000 := by
    rw [abs_of_nonpos (by norm_num)]
    norm_num
  have hd : ((max (truncShift ((95 : ℚ) / 1000000) +
      (if (1 : ℚ) < (95 : ℚ) / 1000000 then (1 : ℤ) else 2)) 0).toNat) = 6 := by
    rw [truncShift_pbcase, if_neg (by norm_num)]
    decide
  unfold value_format
  dsimp only
  rw [if_neg Bool.false_ne_true, hδ, if_neg (by norm_num : ¬ ((95 : ℚ) / 1000000 = 0)),
    pyTruncLog10_pbcase, if_neg (by decide : ¬ ((3 : ℤ) < |(-2 : ℤ)|)), hd,
    formatFixed_value_pbcase, formatFixed_uncp_pbcase, habsm, formatFixed_uncm_pbcase]
  decide

theorem pyTruncLog10_100 : pyTruncLog10 (100 : ℚ) = 2 := by
  unfold pyTruncLog10
  rw [if_pos (by norm_num),
    @int_log10_eq (100 : ℚ) 2 (by norm_num) (by norm_num) (by norm_num)]

theorem intLog10_100 : Int.log 10 (100 : ℚ) = 2 :=
  int_log10_eq (by norm_num) (by norm_num) (by norm_num)

theorem truncShift_5 : truncShift (5 : ℚ) = 0 := by
  unfold truncShift
  dsimp only
  rw [if_neg (by norm_num : ¬ ((10 : ℚ) * 5 ^ 200 ≤ 1)),
    @int_log10_eq ((10 : ℚ) * 5 ^ 200) 140 (by norm_num) (by norm_num)
      (by norm_num)]
  decide

theorem floorShift_5 : floorShift (5 : ℚ) = -1 := by
  unfold floorShift
  rw [@int_log10_eq (((10 : ℚ) * 5 ^ 200)⁻¹) (-141) (by norm_num)
    (by norm_num) (by norm_num)]
  decide

theorem formatFixed_100_1 : formatFixed (100 : ℚ) 1 = "100.0" := by
  unfold formatFixed
  rw [show (100 : ℚ) * 10 ^ (1 : ℕ) = ((1000 : ℤ) : ℚ) from by norm_num,
    pyRound_intCast]
  decide

theorem formatFixed_5_1 : formatFixed (5 : ℚ) 1 = "5.0" := by
  unfold formatFixed
  rw [show (5 : ℚ) * 10 ^ (1 : ℕ) = ((50 : ℤ) : ℚ) from by norm_num,
    pyRound_intCast]
  decide

theorem formatFixed_100_0 : formatFixed (100 : ℚ) 0 = "100" := by
  unfold formatFixed
  rw [show (100 : ℚ) * 10 ^ (0 : ℕ) = ((100 : ℤ) : ℚ) from by norm_num,
    pyRound_intCast]
  decide

theorem formatFixed_5_0 : formatFixed (5 : ℚ) 0 = "5" := by
  unfold formatFixed
  rw [show (5 : ℚ) * 10 ^ (0 : ℕ) = ((5 : ℤ) : ℚ) from by norm_num,
    pyRound_intCast]
  decide

theorem value_format_at_100 :
    value_format (100 : ℚ) 5 (-5) none false = "100.0 +5.0 -5.0" := by
  have hδ : min |(5 : ℚ)| |(-5 : ℚ)| = 5 := by
    rw [abs_of_nonneg (by norm_num), abs_of_nonpos (by norm_num)]
    norm_num
  have habsm : |(-5 : ℚ)| = 5 := by
    rw [abs_of_nonpos (by norm_num)]
    norm_num
  have hd : ((max (truncShift (5 : ℚ) +
      (if (1 : ℚ) < 5 then (1 : ℤ) else 2)) 0).toNat) = 1 := by
    rw [truncShift_5, if_pos (by norm_num)]
    decide
  unfold value_format
  dsimp only
  rw [if_neg Bool.false_ne_true, hδ, if_neg (by norm_num : ¬ ((5 : ℚ) = 0)),
    pyTruncLog10_100, if_neg (by decide : ¬ ((3 : ℤ) < |(2 : ℤ)|)), hd,
    formatFixed_100_1, formatFixed_5_1, habsm, formatFixed_5_1]
  decide

theorem value_format_floorSpec_at_100 :
    value_format_floorSpec (100 : ℚ) 5 (-5) none = "100 +5 -5" := by
  have hδ : min |(5 : ℚ)| |(-5 : ℚ)| = 5 := by
    rw [abs_of_nonneg (by norm_num), abs_of_nonpos (by norm_num)]
    norm_num
  have habsm : |(-5 : ℚ)| = 5 := by
    rw [abs_of_nonpos (by norm_num)]
    norm_num
  have hd : ((max (floorShift (5 : ℚ) +
      (if (1 : ℚ) < 5 then (1 : ℤ) else 2)) 0).toNat) = 0 := by
    rw [floorShift_5, if_pos (by norm_num)]
    decide
  unfold value_format_floorSpec
  dsimp only
  rw [hδ, if_neg (by norm_num : ¬ ((5 : ℚ) = 0)), intLog10_100,
    if_neg (by decide : ¬ ((3 : ℤ) < |(2 : ℤ)|)), hd,
    formatFixed_100_0, formatFixed_5_0, habsm, formatFixed_5_0]
  decide

/-- Counterexample for claim C6: at `value_format(100, 5, -5)` the code
renders `"100.0 +5.0 -5.0"` (one decimal digit, from `int(-log10(5) - 0.005)
= 0`), while the floor-based rule of the claim would give zero digits
(`floor(-log10(5) - 0.005) = -1`) and render `"100 +5 -5"`. -/
theorem C6_floor_rule_counterexample :
    value_format (100 : ℚ) 5 (-5) none false ≠
      value_format_floorSpec (100 : ℚ) 5 (-5) none := by
  rw [value_format_at_100, value_format_floorSpec_at_100]
  decide

/-- Claim C6 (amended): `value_format` implements the significant-digit rule
with Python `int(...)` truncation toward zero in place of `floor` at the
three places where the claim says floor (the order of magnitude of the value
and both digit-count formulas); in particular
`format(0.004508, 0.000099, -0.000095, unit="pb")` returns exactly
`"(0.004508 +0.000099 -0.000095) pb"`. -/
theorem C6_digit_rule_amended :
    (∀ (value unc_p unc_m : ℚ) (unit : Option String),
      value_format value unc_p unc_m unit false =
        value_format_truncSpec value unc_p unc_m unit) ∧
    value_format ((4508 : ℚ) / 1000000) ((99 : ℚ) / 1000000)
        (-((95 : ℚ) / 1000000)) (some "pb") false =
      "(0.004508 +0.000099 -0.000095) pb" :=
  ⟨value_format_eq_truncSpec, value_format_pb_instance⟩
